import Mathlib

/-!
MacroMaker: InputHook and InputSimulator.

A shallow embedding of the two native libraries of the repository,
`DLLs/InputHook/InputHook.cpp` and `DLLs/InputSimulator/InputSimulator.cpp`,
and theorems about them.

Conventions of the embedding.

* Pointers and handles (`HHOOK`, the callback function pointers) are natural
  numbers, `0` being `NULL` / `nullptr`.
* `int` is a 32-bit two's complement integer: a value of `Int` in
  `[-2^31, 2^31)`, and the result of `+`, `-`, `*` on `int` is reduced by
  `wrap32`.
* `double` is IEEE-754 binary64 with round-to-nearest, ties-to-even: a value of
  `ℚ`, every arithmetic result being rounded by `roundDouble`.
* Calls into the operating system and into the host's listeners are recorded in
  a trace of effects; what the operating system answers is a parameter.
-/

namespace MacroMaker

/-! ## Machine arithmetic -/

/-- Two's complement reduction of a mathematical integer to a 32-bit `int`. -/
def wrap32 (n : Int) : Int :=
  (n + 2147483648) % 4294967296 - 2147483648

/-- The values of a 32-bit `int`. -/
def InInt32 (n : Int) : Prop :=
  -2147483648 ≤ n ∧ n ≤ 2147483647

instance (n : Int) : Decidable (InInt32 n) := by
  unfold InInt32; infer_instance

/-- Round a rational to the nearest integer, ties to the even one. -/
def roundHalfEven (q : ℚ) : ℤ :=
  let f := ⌊q⌋
  let r := q - f
  if r < 1 / 2 then f
  else if 1 / 2 < r then f + 1
  else if f % 2 = 0 then f else f + 1

/-- Round a positive rational to 53 significant bits (binary64 precision),
to nearest, ties to even. The exponent is unbounded: every nonzero `double`
this program computes has magnitude between `2^-100` and `2^64`, far inside
the normal range of binary64. -/
def roundMagnitude (q : ℚ) : ℚ :=
  let e := Int.log 2 q - 52
  (roundHalfEven (q / (2 : ℚ) ^ e) : ℚ) * (2 : ℚ) ^ e

/-- The binary64 value nearest to a rational (round-to-nearest, ties-to-even). -/
def roundDouble (q : ℚ) : ℚ :=
  if q = 0 then 0 else if q < 0 then - roundMagnitude (-q) else roundMagnitude q

/-- Truncation toward zero of a rational, the integer part a C++ cast keeps. -/
def truncQ (q : ℚ) : Int :=
  if 0 ≤ q then ⌊q⌋ else ⌈q⌉

/-! ## InputHook.cpp -/

/-- The file-scope variables of `InputHook.cpp` (lines 6-13). `g_startTime` is
the reading of `high_resolution_clock` in clock ticks (nanoseconds); a
default-constructed `time_point` with static storage is tick `0`. -/
structure HookState where
  g_mouseHook : Nat
  g_keyboardHook : Nat
  g_mouseMoveCallback : Nat
  g_mouseButtonCallback : Nat
  g_mouseWheelCallback : Nat
  g_keyboardCallback : Nat
  g_startTime : Int
  g_isInitialized : Bool
deriving DecidableEq

/-- The state at load time: every global at its initialiser. -/
def initialState : HookState :=
  { g_mouseHook := 0, g_keyboardHook := 0, g_mouseMoveCallback := 0,
    g_mouseButtonCallback := 0, g_mouseWheelCallback := 0, g_keyboardCallback := 0,
    g_startTime := 0, g_isInitialized := false }

/-- `InitializeTimer` (lines 16-23); `now` is what the clock reads. -/
def InitializeTimer (s : HookState) (now : Int) : HookState :=
  if !s.g_isInitialized then
    { s with g_startTime := now, g_isInitialized := true }
  else s

/-- The `duration.count()` of `GetCurrentTimestamp` (lines 28-29): the ticks
elapsed since `g_startTime`, cast to whole microseconds (truncating). -/
def elapsedMicroseconds (s : HookState) (now : Int) : Int :=
  Int.tdiv (now - s.g_startTime) 1000

/-- `GetCurrentTimestamp` (lines 26-31): the microsecond count converted to
`double` and divided by `1000.0`. -/
def GetCurrentTimestamp (s : HookState) (now : Int) : ℚ :=
  roundDouble (roundDouble (elapsedMicroseconds s now) / 1000)

/-- `StartMouseHook` (lines 112-125). `installed` is the handle that
`SetWindowsHookEx` returns, `0` when the installation fails. -/
def StartMouseHook (s : HookState) (now : Int)
    (moveCallback buttonCallback wheelCallback : Nat) (installed : Nat) :
    HookState × Bool :=
  let s := InitializeTimer s now
  if s.g_mouseHook ≠ 0 then (s, false)
  else
    let s := { s with g_mouseMoveCallback := moveCallback,
                      g_mouseButtonCallback := buttonCallback,
                      g_mouseWheelCallback := wheelCallback }
    let s := { s with g_mouseHook := installed }
    (s, decide (s.g_mouseHook ≠ 0))

/-- `StartKeyboardHook` (lines 127-138). `installed` is the handle that
`SetWindowsHookEx` returns, `0` when the installation fails. -/
def StartKeyboardHook (s : HookState) (now : Int) (keyCallback : Nat) (installed : Nat) :
    HookState × Bool :=
  let s := InitializeTimer s now
  if s.g_keyboardHook ≠ 0 then (s, false)
  else
    let s := { s with g_keyboardCallback := keyCallback }
    let s := { s with g_keyboardHook := installed }
    (s, decide (s.g_keyboardHook ≠ 0))

/-- `StopHooks` (lines 140-158). -/
def StopHooks (s : HookState) : HookState :=
  let s := if s.g_mouseHook ≠ 0 then { s with g_mouseHook := 0 } else s
  let s := if s.g_keyboardHook ≠ 0 then { s with g_keyboardHook := 0 } else s
  { s with g_mouseMoveCallback := 0, g_mouseButtonCallback := 0,
           g_mouseWheelCallback := 0, g_keyboardCallback := 0 }

/-- `IsHookActive` (lines 160-163). -/
def IsHookActive (s : HookState) : Bool :=
  decide (s.g_mouseHook ≠ 0) || decide (s.g_keyboardHook ≠ 0)

/-- `GetTimestamp` (lines 165-168). -/
def GetTimestamp (s : HookState) (now : Int) : ℚ :=
  GetCurrentTimestamp s now

/-- A call of the exported interface of InputHook, with its arguments and, for
the two `Start` functions, the handle the operating system hands back. -/
inductive Call where
  | startMouseHook (moveCallback buttonCallback wheelCallback : Nat) (installed : Nat)
  | startKeyboardHook (keyCallback : Nat) (installed : Nat)
  | stopHooks
  | isHookActive
  | getTimestamp
deriving DecidableEq

/-- What a call returned to the host. -/
inductive Ret where
  | bool (b : Bool)
  | void
  | timestamp (t : ℚ)
deriving DecidableEq

/-- One call, made when the clock reads `now`. -/
def step (s : HookState) (now : Int) : Call → HookState × Ret
  | .startMouseHook m b w installed =>
      let r := StartMouseHook s now m b w installed
      (r.1, .bool r.2)
  | .startKeyboardHook k installed =>
      let r := StartKeyboardHook s now k installed
      (r.1, .bool r.2)
  | .stopHooks => (StopHooks s, .void)
  | .isHookActive => (s, .bool (IsHookActive s))
  | .getTimestamp => (s, .timestamp (GetTimestamp s now))

/-- A session: the calls in order, each with the clock reading at which it is
made. The result is the final state and the history of calls with what each
returned. -/
def run : HookState → List (Int × Call) → HookState × List (Call × Ret)
  | s, [] => (s, [])
  | s, (now, c) :: rest =>
      let r := step s now c
      let t := run r.1 rest
      (t.1, (c, r.2) :: t.2)

/-- The timestamps a history returned, in call order. -/
def timestampsOf : List (Call × Ret) → List ℚ
  | [] => []
  | (_, .timestamp t) :: rest => t :: timestampsOf rest
  | _ :: rest => timestampsOf rest

/-- Whether a history entry is a `StartMouseHook` that returned true. -/
def isMouseStarted : Call × Ret → Bool
  | (.startMouseHook _ _ _ _, .bool true) => true
  | _ => false

/-- Whether a history entry is a `StartKeyboardHook` that returned true. -/
def isKeyboardStarted : Call × Ret → Bool
  | (.startKeyboardHook _ _, .bool true) => true
  | _ => false

/-- Whether a history entry is a `StopHooks`. -/
def isStop : Call × Ret → Bool
  | (.stopHooks, _) => true
  | _ => false

/-- The channel state of the specification, read off a history walked from the
most recent call back: the channel is Active when a successful Start is met
before any `StopHooks`, and is `base` when neither is met. -/
def activeSince (started : Call × Ret → Bool) (base : Bool) : List (Call × Ret) → Bool
  | [] => base
  | e :: older =>
      if isStop e then false
      else if started e then true
      else activeSince started base older

/-- The mouse channel is Active: its most recent successful Start has not been
followed by a `StopHooks`. -/
def mouseActive (history : List (Call × Ret)) : Bool :=
  activeSince isMouseStarted false history.reverse

/-- The keyboard channel is Active: its most recent successful Start has not
been followed by a `StopHooks`. -/
def keyboardActive (history : List (Call × Ret)) : Bool :=
  activeSince isKeyboardStarted false history.reverse

/-! ### The hook procedures -/

/-- Windows message identifier (`WinUser.h`). -/
def WM_KEYDOWN : Nat := 0x0100
/-- Windows message identifier (`WinUser.h`). -/
def WM_SYSKEYDOWN : Nat := 0x0104
/-- Windows message identifier (`WinUser.h`). -/
def WM_MOUSEMOVE : Nat := 0x0200
/-- Windows message identifier (`WinUser.h`). -/
def WM_LBUTTONDOWN : Nat := 0x0201
/-- Windows message identifier (`WinUser.h`). -/
def WM_LBUTTONUP : Nat := 0x0202
/-- Windows message identifier (`WinUser.h`). -/
def WM_RBUTTONDOWN : Nat := 0x0204
/-- Windows message identifier (`WinUser.h`). -/
def WM_RBUTTONUP : Nat := 0x0205
/-- Windows message identifier (`WinUser.h`). -/
def WM_MBUTTONDOWN : Nat := 0x0207
/-- Windows message identifier (`WinUser.h`). -/
def WM_MBUTTONUP : Nat := 0x0208
/-- Windows message identifier (`WinUser.h`). -/
def WM_MOUSEWHEEL : Nat := 0x020A

/-- The fields of `MSLLHOOKSTRUCT` the procedure reads: the point (`LONG`
coordinates) and `mouseData` (a `DWORD`). -/
structure MSLLHOOKSTRUCT where
  pt_x : Int
  pt_y : Int
  mouseData : Nat
deriving DecidableEq

/-- The field of `KBDLLHOOKSTRUCT` the procedure reads: `vkCode` (a `DWORD`). -/
structure KBDLLHOOKSTRUCT where
  vkCode : Nat
deriving DecidableEq

/-- Modelled from the spec: `HIWORD` is a macro of the Windows headers, which
are not in the repository; the high 16 bits of the packed payload,
`((x >> 16) & 0xffff)`. -/
def HIWORD (l : Nat) : Nat :=
  (l >>> 16) &&& 0xffff

/-- Modelled from the spec: `GET_WHEEL_DELTA_WPARAM` is a macro of the Windows
headers, which are not in the repository; the wheel delta "extracted as a
signed 16-bit quantity from the packed payload", `((short)HIWORD(x))`. -/
def GET_WHEEL_DELTA_WPARAM (wParam : Nat) : Int :=
  if HIWORD wParam < 32768 then (HIWORD wParam : Int) else (HIWORD wParam : Int) - 65536

/-- What a hook procedure does to the outside: a call of one of the host's
listeners through the registered function pointer `fn`, or the call of
`CallNextHookEx`. -/
inductive HookEffect where
  | mouseMoveCallback (fn : Nat) (x y : Int) (timestamp : ℚ)
  | mouseButtonCallback (fn : Nat) (button : Int) (isDown : Bool) (x y : Int) (timestamp : ℚ)
  | mouseWheelCallback (fn : Nat) (delta x y : Int) (timestamp : ℚ)
  | keyboardCallback (fn : Nat) (keyCode : Int) (isDown : Bool) (timestamp : ℚ)
  | callNextHookEx (hhk : Nat) (nCode : Int) (wParam : Nat) (lParam : Int)
deriving DecidableEq

/-- Whether an effect is a call of a listener. -/
def HookEffect.isListenerCall : HookEffect → Bool
  | .callNextHookEx _ _ _ _ => false
  | _ => true

/-- One run of a hook procedure: the effects in order, and the `LRESULT` it
returned, or `none` when an exception raised by a listener left the procedure. -/
structure ProcRun where
  effects : List HookEffect
  result : Option Int
deriving DecidableEq

/-- The listener calls of a run, in order. -/
def ProcRun.listenerCalls (r : ProcRun) : List HookEffect :=
  r.effects.filter HookEffect.isListenerCall

/-- The calls of `CallNextHookEx` of a run, in order. -/
def ProcRun.forwarded (r : ProcRun) : List HookEffect :=
  r.effects.filter (fun e => !e.isListenerCall)

/-- The `switch` of `LowLevelMouseProc` (lines 41-85): the listener calls it
makes for message `wParam`, the structure `lParam` points to and the timestamp
taken at line 39. -/
def mouseSwitch (s : HookState) (wParam : Nat) (mouseStruct : MSLLHOOKSTRUCT)
    (timestamp : ℚ) : List HookEffect :=
  if wParam = WM_MOUSEMOVE then
    if s.g_mouseMoveCallback ≠ 0 then
      [.mouseMoveCallback s.g_mouseMoveCallback mouseStruct.pt_x mouseStruct.pt_y timestamp]
    else []
  else if wParam = WM_LBUTTONDOWN then
    if s.g_mouseButtonCallback ≠ 0 then
      [.mouseButtonCallback s.g_mouseButtonCallback 0 true mouseStruct.pt_x mouseStruct.pt_y
        timestamp]
    else []
  else if wParam = WM_LBUTTONUP then
    if s.g_mouseButtonCallback ≠ 0 then
      [.mouseButtonCallback s.g_mouseButtonCallback 0 false mouseStruct.pt_x mouseStruct.pt_y
        timestamp]
    else []
  else if wParam = WM_RBUTTONDOWN then
    if s.g_mouseButtonCallback ≠ 0 then
      [.mouseButtonCallback s.g_mouseButtonCallback 1 true mouseStruct.pt_x mouseStruct.pt_y
        timestamp]
    else []
  else if wParam = WM_RBUTTONUP then
    if s.g_mouseButtonCallback ≠ 0 then
      [.mouseButtonCallback s.g_mouseButtonCallback 1 false mouseStruct.pt_x mouseStruct.pt_y
        timestamp]
    else []
  else if wParam = WM_MBUTTONDOWN then
    if s.g_mouseButtonCallback ≠ 0 then
      [.mouseButtonCallback s.g_mouseButtonCallback 2 true mouseStruct.pt_x mouseStruct.pt_y
        timestamp]
    else []
  else if wParam = WM_MBUTTONUP then
    if s.g_mouseButtonCallback ≠ 0 then
      [.mouseButtonCallback s.g_mouseButtonCallback 2 false mouseStruct.pt_x mouseStruct.pt_y
        timestamp]
    else []
  else if wParam = WM_MOUSEWHEEL then
    if s.g_mouseWheelCallback ≠ 0 then
      let delta := GET_WHEEL_DELTA_WPARAM mouseStruct.mouseData
      [.mouseWheelCallback s.g_mouseWheelCallback delta mouseStruct.pt_x mouseStruct.pt_y
        timestamp]
    else []
  else []

/-- The end of a hook procedure. The procedures have no exception handler: when
a listener call raises, the exception leaves the procedure and the statements
after the call are not executed; otherwise the procedure returns what
`CallNextHookEx` returns (`next`). `raises` says which listener calls raise. -/
def forwardAfter (raises : HookEffect → Bool) (calls : List HookEffect)
    (hhk : Nat) (nCode : Int) (wParam : Nat) (lParam : Int) (next : Int) : ProcRun :=
  if calls.any raises then
    { effects := calls, result := none }
  else
    { effects := calls ++ [.callNextHookEx hhk nCode wParam lParam], result := some next }

/-- `LowLevelMouseProc` (lines 34-89). `now` is the clock reading, `memory` the
structure each `lParam` points to, `raises` the behaviour of the host's
listeners, `next` what `CallNextHookEx` returns. -/
def LowLevelMouseProc (s : HookState) (now : Int) (memory : Int → MSLLHOOKSTRUCT)
    (raises : HookEffect → Bool) (next : Int)
    (nCode : Int) (wParam : Nat) (lParam : Int) : ProcRun :=
  let calls :=
    if nCode ≥ 0 then
      let mouseStruct := memory lParam
      let timestamp := GetCurrentTimestamp s now
      mouseSwitch s wParam mouseStruct timestamp
    else []
  forwardAfter raises calls s.g_mouseHook nCode wParam lParam next

/-- `LowLevelKeyboardProc` (lines 92-107). The `DWORD` `vkCode` is converted to
the listener's `int` parameter. -/
def LowLevelKeyboardProc (s : HookState) (now : Int) (memory : Int → KBDLLHOOKSTRUCT)
    (raises : HookEffect → Bool) (next : Int)
    (nCode : Int) (wParam : Nat) (lParam : Int) : ProcRun :=
  let calls :=
    if nCode ≥ 0 then
      let keyboardStruct := memory lParam
      let timestamp := GetCurrentTimestamp s now
      if s.g_keyboardCallback ≠ 0 then
        let isDown := decide (wParam = WM_KEYDOWN ∨ wParam = WM_SYSKEYDOWN)
        [.keyboardCallback s.g_keyboardCallback (wrap32 keyboardStruct.vkCode) isDown
          timestamp]
      else []
    else []
  forwardAfter raises calls s.g_keyboardHook nCode wParam lParam next

/-! ## InputSimulator.cpp -/

/-- Flag of `MOUSEINPUT.dwFlags` (`WinUser.h`). -/
def MOUSEEVENTF_MOVE : Nat := 0x0001
/-- Flag of `MOUSEINPUT.dwFlags` (`WinUser.h`). -/
def MOUSEEVENTF_LEFTDOWN : Nat := 0x0002
/-- Flag of `MOUSEINPUT.dwFlags` (`WinUser.h`). -/
def MOUSEEVENTF_LEFTUP : Nat := 0x0004
/-- Flag of `MOUSEINPUT.dwFlags` (`WinUser.h`). -/
def MOUSEEVENTF_RIGHTDOWN : Nat := 0x0008
/-- Flag of `MOUSEINPUT.dwFlags` (`WinUser.h`). -/
def MOUSEEVENTF_RIGHTUP : Nat := 0x0010
/-- Flag of `MOUSEINPUT.dwFlags` (`WinUser.h`). -/
def MOUSEEVENTF_MIDDLEDOWN : Nat := 0x0020
/-- Flag of `MOUSEINPUT.dwFlags` (`WinUser.h`). -/
def MOUSEEVENTF_MIDDLEUP : Nat := 0x0040
/-- Flag of `MOUSEINPUT.dwFlags` (`WinUser.h`). -/
def MOUSEEVENTF_ABSOLUTE : Nat := 0x8000

/-- A synthetic mouse event handed to `SendInput`: an `INPUT` of type
`INPUT_MOUSE` with the four fields `SendMouseInput` sets, the others zero. -/
structure MouseInput where
  dwFlags : Nat
  dx : Int
  dy : Int
  mouseData : Nat
deriving DecidableEq

/-- `SendMouseInput` (lines 8-17): the events it submits. A caller that leaves
out `x`, `y` or `data` passes the default `0` of the declaration. -/
def SendMouseInput (flags : Nat) (x : Int) (y : Int) (data : Nat) : List MouseInput :=
  [{ dwFlags := flags, dx := x, dy := y, mouseData := data }]

/-- `ScreenToAbsolute` (lines 29-35). `screenWidth` and `screenHeight` are what
`GetSystemMetrics` answers. The product is an `int` product and `/` is the
division of C++, which truncates toward zero; a zero divisor has no result. -/
def ScreenToAbsolute (x y : Int) (screenWidth screenHeight : Int) : Option (Int × Int) :=
  if screenWidth = 0 ∨ screenHeight = 0 then none
  else
    let absX := wrap32 (Int.tdiv (wrap32 (x * 65535)) screenWidth)
    let absY := wrap32 (Int.tdiv (wrap32 (y * 65535)) screenHeight)
    some (absX, absY)

/-- The absolute coordinate as the specification words it: the floor of
`x * 65535 / screen`, computed over the mathematical integers. -/
def floorAbsolute (x screen : Int) : Int :=
  ⌊((x * 65535 : Int) : ℚ) / (screen : ℚ)⌋

/-- `MoveMouse` (lines 40-45): the events it submits. -/
def MoveMouse (x y : Int) (screenWidth screenHeight : Int) : Option (List MouseInput) :=
  match ScreenToAbsolute x y screenWidth screenHeight with
  | none => none
  | some (absX, absY) =>
      some (SendMouseInput (MOUSEEVENTF_MOVE ||| MOUSEEVENTF_ABSOLUTE) absX absY 0)

/-- `MouseButtonDown` (lines 69-80): the events it submits. -/
def MouseButtonDown (button : Int) : List MouseInput :=
  if button = 0 then SendMouseInput MOUSEEVENTF_LEFTDOWN 0 0 0
  else if button = 1 then SendMouseInput MOUSEEVENTF_RIGHTDOWN 0 0 0
  else if button = 2 then SendMouseInput MOUSEEVENTF_MIDDLEDOWN 0 0 0
  else []

/-- `MouseButtonUp` (lines 82-93): the events it submits. -/
def MouseButtonUp (button : Int) : List MouseInput :=
  if button = 0 then SendMouseInput MOUSEEVENTF_LEFTUP 0 0 0
  else if button = 1 then SendMouseInput MOUSEEVENTF_RIGHTUP 0 0 0
  else if button = 2 then SendMouseInput MOUSEEVENTF_MIDDLEUP 0 0 0
  else []

/-- Why a run of `MoveMouseSmooth` has no result: a `double` outside the range
of `int` was cast to `int` (the cast has no defined value), or the loop was
still running when the fuel ran out. -/
inductive Fault where
  | castOutOfRange
  | outOfFuel
deriving DecidableEq

/-- The cast `(int)d` of a `double`: truncation toward zero, defined when the
truncated value is an `int`. -/
def castToInt (d : ℚ) : Except Fault Int :=
  if InInt32 (truncQ d) then .ok (truncQ d) else .error .castOutOfRange

/-- The interpolation parameter of one iteration, `(double)i / steps`
(line 58). -/
def lerpParameter (steps i : Int) : ℚ :=
  roundDouble ((i : ℚ) / (steps : ℚ))

/-- The `double` that lines 59 and 60 cast: `start + (target - start) * t`, the
difference an `int` difference, the product and the sum in `double`. -/
def waypointDouble (start target steps i : Int) : ℚ :=
  let t := lerpParameter steps i
  roundDouble ((start : ℚ) + roundDouble ((wrap32 (target - start) : ℚ) * t))

/-- One coordinate of the waypoint of iteration `i` (lines 58-60):
`(int)(start + (target - start) * t)`. -/
def waypoint (start target steps i : Int) : Except Fault Int :=
  castToInt (waypointDouble start target steps i)

/-- The calls `MoveMouseSmooth` makes. -/
inductive SmoothCall where
  | moveMouse (x y : Int)
  | preciseSleep (milliseconds : Int)
deriving DecidableEq

/-- The loop of `MoveMouseSmooth` (lines 55-66) from counter value `i` on: the
calls it makes, in order. Each unit of fuel pays for one evaluation of the loop
condition. -/
def smoothLoop (startX startY targetX targetY steps delayMs : Int) :
    Nat → Int → Except Fault (List SmoothCall)
  | 0, _ => .error .outOfFuel
  | fuel + 1, i =>
      if i ≤ steps then
        match waypoint startX targetX steps i with
        | .error e => .error e
        | .ok x =>
          match waypoint startY targetY steps i with
          | .error e => .error e
          | .ok y =>
            match smoothLoop startX startY targetX targetY steps delayMs fuel
                (wrap32 (i + 1)) with
            | .error e => .error e
            | .ok rest =>
              .ok (SmoothCall.moveMouse x y ::
                ((if delayMs > 0 ∧ i < steps then [SmoothCall.preciseSleep delayMs] else [])
                  ++ rest))
      else .ok []

/-- `MoveMouseSmooth` (lines 47-67). `currentPos` is the cursor position that
`GetCursorPos` reports. -/
def MoveMouseSmooth (currentPos : Int × Int) (targetX targetY steps delayMs : Int)
    (fuel : Nat) : Except Fault (List SmoothCall) :=
  let startX := currentPos.1
  let startY := currentPos.2
  smoothLoop startX startY targetX targetY steps delayMs fuel 1

/-- The waypoints passed to `MoveMouse`, in call order. -/
def movesOf : List SmoothCall → List (Int × Int)
  | [] => []
  | .moveMouse x y :: rest => (x, y) :: movesOf rest
  | .preciseSleep _ :: rest => movesOf rest

/-! ## Rounding to binary64 -/

theorem roundHalfEven_intCast (n : ℤ) : roundHalfEven (n : ℚ) = n := by
  simp [roundHalfEven]

theorem roundHalfEven_bounds (q : ℚ) : ⌊q⌋ ≤ roundHalfEven q ∧ roundHalfEven q ≤ ⌊q⌋ + 1 := by
  unfold roundHalfEven
  simp only
  split_ifs <;> constructor <;> omega

theorem roundHalfEven_mono {x y : ℚ} (h : x ≤ y) : roundHalfEven x ≤ roundHalfEven y := by
  have hf : ⌊x⌋ ≤ ⌊y⌋ := Int.floor_mono h
  rcases lt_or_eq_of_le hf with hlt | heq
  · have h1 := (roundHalfEven_bounds x).2
    have h2 := (roundHalfEven_bounds y).1
    omega
  · have hr : x - ⌊x⌋ ≤ y - ⌊y⌋ := by rw [heq]; linarith
    unfold roundHalfEven
    simp only
    rw [heq] at hr ⊢
    split_ifs <;> first | omega | (exfalso; linarith)

theorem roundMagnitude_bounds {q : ℚ} (hq : 0 < q) :
    (2 : ℚ) ^ Int.log 2 q ≤ roundMagnitude q
      ∧ roundMagnitude q ≤ (2 : ℚ) ^ (Int.log 2 q + 1) := by
  have hlo : ((2 : ℕ) : ℚ) ^ Int.log 2 q ≤ q := Int.zpow_log_le_self (by norm_num) hq
  have hhi : q < ((2 : ℕ) : ℚ) ^ (Int.log 2 q + 1) := Int.lt_zpow_succ_log_self (by norm_num) q
  simp only [Nat.cast_ofNat] at hlo hhi
  have hP : (0 : ℚ) < (2 : ℚ) ^ (Int.log 2 q - 52) := zpow_pos (by norm_num) _
  have e1 : (2 : ℚ) ^ Int.log 2 q
      = ((4503599627370496 : ℤ) : ℚ) * (2 : ℚ) ^ (Int.log 2 q - 52) := by
    rw [zpow_sub₀ (by norm_num : (2 : ℚ) ≠ 0)]
    norm_num
    ring
  have e2 : (2 : ℚ) ^ (Int.log 2 q + 1)
      = ((9007199254740992 : ℤ) : ℚ) * (2 : ℚ) ^ (Int.log 2 q - 52) := by
    rw [zpow_sub₀ (by norm_num : (2 : ℚ) ≠ 0), zpow_add₀ (by norm_num : (2 : ℚ) ≠ 0)]
    norm_num
    ring
  have b1 : ((4503599627370496 : ℤ) : ℚ) ≤ q / (2 : ℚ) ^ (Int.log 2 q - 52) := by
    rw [le_div_iff₀ hP, ← e1]; exact hlo
  have b2 : q / (2 : ℚ) ^ (Int.log 2 q - 52) ≤ ((9007199254740992 : ℤ) : ℚ) := by
    rw [div_le_iff₀ hP, ← e2]; exact hhi.le
  have r1 := roundHalfEven_mono b1
  have r2 := roundHalfEven_mono b2
  rw [roundHalfEven_intCast] at r1 r2
  unfold roundMagnitude
  simp only
  rw [e1, e2]
  constructor
  · exact mul_le_mul_of_nonneg_right (by exact_mod_cast r1) hP.le
  · exact mul_le_mul_of_nonneg_right (by exact_mod_cast r2) hP.le

theorem roundMagnitude_pos {q : ℚ} (hq : 0 < q) : 0 < roundMagnitude q :=
  lt_of_lt_of_le (zpow_pos (by norm_num) _) (roundMagnitude_bounds hq).1

theorem roundMagnitude_mono {x y : ℚ} (hx : 0 < x) (h : x ≤ y) :
    roundMagnitude x ≤ roundMagnitude y := by
  have hy : 0 < y := lt_of_lt_of_le hx h
  have hk : Int.log 2 x ≤ Int.log 2 y := Int.log_mono_right hx h
  rcases lt_or_eq_of_le hk with hlt | heq
  · calc roundMagnitude x ≤ (2 : ℚ) ^ (Int.log 2 x + 1) := (roundMagnitude_bounds hx).2
      _ ≤ (2 : ℚ) ^ Int.log 2 y := zpow_le_zpow_right₀ (by norm_num) (by omega)
      _ ≤ roundMagnitude y := (roundMagnitude_bounds hy).1
  · unfold roundMagnitude
    simp only
    rw [heq]
    have hP : (0 : ℚ) < (2 : ℚ) ^ (Int.log 2 y - 52) := zpow_pos (by norm_num) _
    have hdiv : x / (2 : ℚ) ^ (Int.log 2 y - 52) ≤ y / (2 : ℚ) ^ (Int.log 2 y - 52) :=
      div_le_div_of_nonneg_right h hP.le
    exact mul_le_mul_of_nonneg_right (by exact_mod_cast roundHalfEven_mono hdiv) hP.le

/-- Rounding to binary64 is monotone. -/
theorem roundDouble_mono {x y : ℚ} (h : x ≤ y) : roundDouble x ≤ roundDouble y := by
  unfold roundDouble
  rcases lt_trichotomy x 0 with hx | hx | hx <;> rcases lt_trichotomy y 0 with hy | hy | hy
  · rw [if_neg hx.ne, if_pos hx, if_neg hy.ne, if_pos hy]
    have := roundMagnitude_mono (neg_pos.mpr hy) (neg_le_neg h)
    linarith
  · rw [if_neg hx.ne, if_pos hx, if_pos hy]
    have := roundMagnitude_pos (neg_pos.mpr hx)
    linarith
  · rw [if_neg hx.ne, if_pos hx, if_neg hy.ne', if_neg (not_lt.mpr hy.le)]
    have := roundMagnitude_pos (neg_pos.mpr hx)
    have := roundMagnitude_pos hy
    linarith
  · exfalso; linarith
  · rw [if_pos hx, if_pos hy]
  · rw [if_pos hx, if_neg hy.ne', if_neg (not_lt.mpr hy.le)]
    exact (roundMagnitude_pos hy).le
  · exfalso; linarith
  · exfalso; linarith
  · rw [if_neg hx.ne', if_neg (not_lt.mpr hx.le), if_neg hy.ne', if_neg (not_lt.mpr hy.le)]
    exact roundMagnitude_mono hx h

theorem roundMagnitude_dyadic {n : ℤ} (z : ℤ) (h0 : 0 < n) (h : n < 9007199254740992) :
    roundMagnitude ((n : ℚ) * (2 : ℚ) ^ z) = (n : ℚ) * (2 : ℚ) ^ z := by
  have h2 : (2 : ℚ) ≠ 0 := by norm_num
  have hz : (0 : ℚ) < (2 : ℚ) ^ z := zpow_pos (by norm_num) _
  have hq : (0 : ℚ) < (n : ℚ) * (2 : ℚ) ^ z := mul_pos (by exact_mod_cast h0) hz
  have hlt : (n : ℚ) * (2 : ℚ) ^ z < ((2 : ℕ) : ℚ) ^ (z + 53) := by
    have hn : (n : ℚ) < 9007199254740992 := by exact_mod_cast h
    have e : ((2 : ℕ) : ℚ) ^ (z + 53) = 9007199254740992 * (2 : ℚ) ^ z := by
      rw [Nat.cast_ofNat, zpow_add₀ h2]
      norm_num
      ring
    rw [e]
    exact mul_lt_mul_of_pos_right hn hz
  have hk : Int.log 2 ((n : ℚ) * (2 : ℚ) ^ z) < z + 53 :=
    (Int.lt_zpow_iff_log_lt (by norm_num) hq).mp hlt
  obtain ⟨m, hm⟩ : ∃ m : ℕ, z - (Int.log 2 ((n : ℚ) * (2 : ℚ) ^ z) - 52) = (m : ℤ) :=
    ⟨(z - (Int.log 2 ((n : ℚ) * (2 : ℚ) ^ z) - 52)).toNat, by omega⟩
  unfold roundMagnitude
  simp only
  have e : (n : ℚ) * (2 : ℚ) ^ z / (2 : ℚ) ^ (Int.log 2 ((n : ℚ) * (2 : ℚ) ^ z) - 52)
      = ((n * 2 ^ m : ℤ) : ℚ) := by
    rw [mul_div_assoc, ← zpow_sub₀ h2, hm, zpow_natCast]
    push_cast
    ring
  rw [e, roundHalfEven_intCast]
  push_cast
  rw [mul_assoc, ← zpow_natCast, ← zpow_add₀ h2, ← hm]
  congr 2
  ring

/-- A dyadic rational whose numerator has magnitude below `2^53` is a binary64
value: rounding keeps it. -/
theorem roundDouble_dyadic {n : ℤ} (z : ℤ) (h1 : -9007199254740992 < n)
    (h2 : n < 9007199254740992) :
    roundDouble ((n : ℚ) * (2 : ℚ) ^ z) = (n : ℚ) * (2 : ℚ) ^ z := by
  have hz : (0 : ℚ) < (2 : ℚ) ^ z := zpow_pos (by norm_num) _
  unfold roundDouble
  rcases lt_trichotomy n 0 with hn | hn | hn
  · have hq : (n : ℚ) * (2 : ℚ) ^ z < 0 := mul_neg_of_neg_of_pos (by exact_mod_cast hn) hz
    rw [if_neg hq.ne, if_pos hq]
    have := roundMagnitude_dyadic (n := -n) z (by omega) (by omega)
    push_cast at this
    rw [← neg_mul, this]
    ring
  · subst hn; simp
  · have hq : (0 : ℚ) < (n : ℚ) * (2 : ℚ) ^ z := mul_pos (by exact_mod_cast hn) hz
    rw [if_neg hq.ne', if_neg (not_lt.mpr hq.le)]
    exact roundMagnitude_dyadic z hn h2

/-- Integers of magnitude below `2^53` are binary64 values: rounding keeps them. -/
theorem roundDouble_intCast {n : ℤ} (h1 : -9007199254740992 < n) (h2 : n < 9007199254740992) :
    roundDouble (n : ℚ) = n := by
  have := roundDouble_dyadic 0 h1 h2
  simpa using this

/-! ## The hook session -/

theorem activeSince_append_single (started : Call × Ret → Bool) (base : Bool)
    (l : List (Call × Ret)) (e : Call × Ret) :
    activeSince started base (l ++ [e]) = activeSince started (activeSince started base [e]) l := by
  induction l with
  | nil => rfl
  | cons a l ih =>
    show (if isStop a then false else if started a then true
        else activeSince started base (l ++ [e])) = _
    rw [ih]
    rfl

theorem step_mouseHook (s : HookState) (now : Int) (c : Call) :
    decide ((step s now c).1.g_mouseHook ≠ 0)
      = activeSince isMouseStarted (decide (s.g_mouseHook ≠ 0)) [(c, (step s now c).2)] := by
  cases c with
  | startMouseHook m b w installed =>
    by_cases h : s.g_mouseHook = 0 <;> by_cases hi : installed = 0 <;>
      simp [step, StartMouseHook, InitializeTimer, activeSince, isStop, isMouseStarted, h, hi] <;>
      split_ifs <;> simp [h, hi]
  | startKeyboardHook k installed =>
    by_cases h : s.g_keyboardHook = 0 <;>
      simp [step, StartKeyboardHook, InitializeTimer, activeSince, isStop, isMouseStarted, h] <;>
      split_ifs <;> simp [h]
  | stopHooks =>
    by_cases h : s.g_mouseHook = 0 <;> by_cases hk : s.g_keyboardHook = 0 <;>
      simp [step, StopHooks, activeSince, isStop, h, hk]
  | isHookActive => simp [step, activeSince, isStop, isMouseStarted]
  | getTimestamp => simp [step, activeSince, isStop, isMouseStarted]

theorem step_keyboardHook (s : HookState) (now : Int) (c : Call) :
    decide ((step s now c).1.g_keyboardHook ≠ 0)
      = activeSince isKeyboardStarted (decide (s.g_keyboardHook ≠ 0))
          [(c, (step s now c).2)] := by
  cases c with
  | startMouseHook m b w installed =>
    by_cases h : s.g_mouseHook = 0 <;>
      simp [step, StartMouseHook, InitializeTimer, activeSince, isStop, isKeyboardStarted, h] <;>
      split_ifs <;> simp [h]
  | startKeyboardHook k installed =>
    by_cases h : s.g_keyboardHook = 0 <;> by_cases hi : installed = 0 <;>
      simp [step, StartKeyboardHook, InitializeTimer, activeSince, isStop, isKeyboardStarted,
        h, hi] <;>
      split_ifs <;> simp [h, hi]
  | stopHooks =>
    by_cases h : s.g_mouseHook = 0 <;> by_cases hk : s.g_keyboardHook = 0 <;>
      simp [step, StopHooks, activeSince, isStop, h, hk]
  | isHookActive => simp [step, activeSince, isStop, isKeyboardStarted]
  | getTimestamp => simp [step, activeSince, isStop, isKeyboardStarted]

theorem run_mouseHook (calls : List (Int × Call)) (s : HookState) :
    decide ((run s calls).1.g_mouseHook ≠ 0)
      = activeSince isMouseStarted (decide (s.g_mouseHook ≠ 0)) (run s calls).2.reverse := by
  induction calls generalizing s with
  | nil => simp [run, activeSince]
  | cons a rest ih =>
    obtain ⟨now, c⟩ := a
    simp only [run, List.reverse_cons]
    rw [activeSince_append_single, ← step_mouseHook, ih]

theorem run_keyboardHook (calls : List (Int × Call)) (s : HookState) :
    decide ((run s calls).1.g_keyboardHook ≠ 0)
      = activeSince isKeyboardStarted (decide (s.g_keyboardHook ≠ 0))
          (run s calls).2.reverse := by
  induction calls generalizing s with
  | nil => simp [run, activeSince]
  | cons a rest ih =>
    obtain ⟨now, c⟩ := a
    simp only [run, List.reverse_cons]
    rw [activeSince_append_single, ← step_keyboardHook, ih]

/-- C1: after every sequence of calls from the initial state, whatever the
operating system answers to each installation, `IsHookActive` is true exactly
when the mouse channel or the keyboard channel is Active, a channel being
Active when its most recent successful Start has not been followed by a
`StopHooks`. -/
theorem isHookActive_eq_channels (calls : List (Int × Call)) :
    IsHookActive (run initialState calls).1
      = (mouseActive (run initialState calls).2 || keyboardActive (run initialState calls).2) := by
  unfold IsHookActive mouseActive keyboardActive
  rw [run_mouseHook, run_keyboardHook]
  rfl

/-- C2: on a state whose mouse channel is Active, `StartMouseHook` returns
false and leaves the hook handle, the three mouse listeners and the keyboard
channel as they were, whatever listeners are passed; and the same for
`StartKeyboardHook` on an Active keyboard channel. -/
theorem start_on_active_channel_rejected (s : HookState) (now : Int)
    (m b w k installed : Nat) :
    (s.g_mouseHook ≠ 0 →
      (StartMouseHook s now m b w installed).2 = false
      ∧ (StartMouseHook s now m b w installed).1.g_mouseHook = s.g_mouseHook
      ∧ (StartMouseHook s now m b w installed).1.g_mouseMoveCallback = s.g_mouseMoveCallback
      ∧ (StartMouseHook s now m b w installed).1.g_mouseButtonCallback = s.g_mouseButtonCallback
      ∧ (StartMouseHook s now m b w installed).1.g_mouseWheelCallback = s.g_mouseWheelCallback
      ∧ (StartMouseHook s now m b w installed).1.g_keyboardHook = s.g_keyboardHook
      ∧ (StartMouseHook s now m b w installed).1.g_keyboardCallback = s.g_keyboardCallback)
    ∧ (s.g_keyboardHook ≠ 0 →
      (StartKeyboardHook s now k installed).2 = false
      ∧ (StartKeyboardHook s now k installed).1.g_keyboardHook = s.g_keyboardHook
      ∧ (StartKeyboardHook s now k installed).1.g_keyboardCallback = s.g_keyboardCallback
      ∧ (StartKeyboardHook s now k installed).1.g_mouseHook = s.g_mouseHook
      ∧ (StartKeyboardHook s now k installed).1.g_mouseMoveCallback = s.g_mouseMoveCallback
      ∧ (StartKeyboardHook s now k installed).1.g_mouseButtonCallback = s.g_mouseButtonCallback
      ∧ (StartKeyboardHook s now k installed).1.g_mouseWheelCallback
          = s.g_mouseWheelCallback) := by
  constructor
  · intro h
    unfold StartMouseHook InitializeTimer
    split_ifs <;> simp_all
  · intro h
    unfold StartKeyboardHook InitializeTimer
    split_ifs <;> simp_all

/-- C2 at a state with both channels Active and listeners 11, 12, 13, 14:
a second Start of either channel, with other listeners, is rejected and changes
none of them. -/
theorem start_on_active_channel_rejected_witness :
    ((StartMouseHook ⟨7, 8, 11, 12, 13, 14, 0, true⟩ 5 21 22 23 9).2 = false
      ∧ (StartMouseHook ⟨7, 8, 11, 12, 13, 14, 0, true⟩ 5 21 22 23 9).1.g_mouseMoveCallback = 11)
    ∧ ((StartKeyboardHook ⟨7, 8, 11, 12, 13, 14, 0, true⟩ 5 24 9).2 = false
      ∧ (StartKeyboardHook ⟨7, 8, 11, 12, 13, 14, 0, true⟩ 5 24 9).1.g_keyboardCallback = 14) :=
  have h := start_on_active_channel_rejected ⟨7, 8, 11, 12, 13, 14, 0, true⟩ 5 21 22 23 24 9
  ⟨⟨(h.1 (by decide)).1, (h.1 (by decide)).2.2.1⟩,
   ⟨(h.2 (by decide)).1, (h.2 (by decide)).2.2.1⟩⟩

/-- C3, the code at the failing input: `GetTimestamp` when the clock reads
60 000 000 000 ticks (60 s), then `StartMouseHook`, then `GetTimestamp` when the
clock reads 61 000 000 000 ticks. `GetTimestamp` does not call
`InitializeTimer`, so the first call measures from tick 0 and returns 60000 ms;
the Start sets the epoch; the later call returns 1000 ms. -/
theorem getTimestamp_drops_after_first_start :
    timestampsOf (run initialState
      [(60000000000, Call.getTimestamp), (60000000000, Call.startMouseHook 1 2 3 7),
       (61000000000, Call.getTimestamp)]).2 = [60000, 1000] := by
  have a1 : roundDouble (60000000 : ℚ) = 60000000 := by
    exact_mod_cast roundDouble_intCast (n := 60000000) (by decide) (by decide)
  have a2 : roundDouble (1000000 : ℚ) = 1000000 := by
    exact_mod_cast roundDouble_intCast (n := 1000000) (by decide) (by decide)
  have b1 : roundDouble (60000 : ℚ) = 60000 := by
    exact_mod_cast roundDouble_intCast (n := 60000) (by decide) (by decide)
  have b2 : roundDouble (1000 : ℚ) = 1000 := by
    exact_mod_cast roundDouble_intCast (n := 1000) (by decide) (by decide)
  have e1 : Int.tdiv 60000000000 1000 = 60000000 := by decide
  have e2 : Int.tdiv 1000000000 1000 = 1000000 := by decide
  simp [run, step, GetTimestamp, GetCurrentTimestamp, elapsedMicroseconds, StartMouseHook,
    InitializeTimer, initialState, timestampsOf, e1, e2, a1, a2]
  norm_num [b1, b2]

/-- C4, the code at the failing input: from the initial state,
`StartMouseHook(11, 12, 13)` and `StartKeyboardHook(14)` whose installations
fail return false and leave both channels Inactive, with all four listeners
registered. -/
theorem failed_install_keeps_listeners :
    (run initialState [(0, Call.startMouseHook 11 12 13 0), (0, Call.startKeyboardHook 14 0)])
      = (⟨0, 0, 11, 12, 13, 14, 0, true⟩,
         [(Call.startMouseHook 11 12 13 0, Ret.bool false),
          (Call.startKeyboardHook 14 0, Ret.bool false)]) := by
  decide

/-! ## The hook procedures -/

theorem HIWORD_eq (l : Nat) : HIWORD l = l / 65536 % 65536 := by
  unfold HIWORD
  rw [Nat.shiftRight_eq_div_pow]
  exact Nat.and_pow_two_sub_one_eq_mod (l / 2 ^ 16) 16

theorem mouseSwitch_isListenerCall (s : HookState) (wParam : Nat) (ms : MSLLHOOKSTRUCT)
    (t : ℚ) : ∀ e ∈ mouseSwitch s wParam ms t, e.isListenerCall = true := by
  intro e he
  revert e
  unfold mouseSwitch
  repeat' split
  all_goals
    intro e he
    first
    | exact absurd he (List.not_mem_nil _)
    | (rw [List.mem_singleton] at he; subst he; rfl)

theorem forwardAfter_listenerCalls (raises : HookEffect → Bool) (calls : List HookEffect)
    (hhk : Nat) (nCode : Int) (wParam : Nat) (lParam : Int) (next : Int)
    (h : ∀ e ∈ calls, e.isListenerCall = true) :
    (forwardAfter raises calls hhk nCode wParam lParam next).listenerCalls = calls := by
  unfold forwardAfter ProcRun.listenerCalls
  split_ifs
  · exact List.filter_eq_self.mpr h
  · simp only [List.filter_append]
    rw [List.filter_eq_self.mpr h]
    simp [HookEffect.isListenerCall]

theorem forwardAfter_returns (raises : HookEffect → Bool) (calls : List HookEffect)
    (hhk : Nat) (nCode : Int) (wParam : Nat) (lParam : Int) (next : Int)
    (h : ∀ e ∈ calls, e.isListenerCall = true)
    (hr : ∀ e ∈ calls, raises e = false) :
    (forwardAfter raises calls hhk nCode wParam lParam next).result = some next
    ∧ (forwardAfter raises calls hhk nCode wParam lParam next).effects
        = calls ++ [HookEffect.callNextHookEx hhk nCode wParam lParam]
    ∧ (forwardAfter raises calls hhk nCode wParam lParam next).forwarded
        = [HookEffect.callNextHookEx hhk nCode wParam lParam] := by
  have hany : calls.any raises = false := by
    rw [List.any_eq_false]
    intro e he
    simp [hr e he]
  unfold ProcRun.forwarded forwardAfter
  rw [hany]
  refine ⟨rfl, rfl, ?_⟩
  simp only [Bool.false_eq_true, if_false, List.filter_append]
  have : calls.filter (fun e => !e.isListenerCall) = [] := by
    rw [List.filter_eq_nil_iff]
    intro e he
    simp [h e he]
  rw [this]
  simp [HookEffect.isListenerCall]

theorem forwardAfter_raises (raises : HookEffect → Bool) (calls : List HookEffect)
    (hhk : Nat) (nCode : Int) (wParam : Nat) (lParam : Int) (next : Int)
    (h : ∀ e ∈ calls, e.isListenerCall = true)
    (hr : ∃ e ∈ calls, raises e = true) :
    (forwardAfter raises calls hhk nCode wParam lParam next).result = none
    ∧ (forwardAfter raises calls hhk nCode wParam lParam next).forwarded = [] := by
  have hany : calls.any raises = true := by
    rw [List.any_eq_true]
    exact hr
  unfold ProcRun.forwarded forwardAfter
  rw [hany]
  refine ⟨rfl, ?_⟩
  simp only [if_true]
  rw [List.filter_eq_nil_iff]
  intro e he
  simp [h e he]

theorem lowLevelMouseProc_listenerCalls (s : HookState) (now : Int)
    (memory : Int → MSLLHOOKSTRUCT) (raises : HookEffect → Bool) (next : Int)
    (nCode : Int) (wParam : Nat) (lParam : Int) :
    (LowLevelMouseProc s now memory raises next nCode wParam lParam).listenerCalls
      = if nCode ≥ 0 then mouseSwitch s wParam (memory lParam) (GetCurrentTimestamp s now)
        else [] := by
  unfold LowLevelMouseProc
  apply forwardAfter_listenerCalls
  intro e he
  split_ifs at he with h
  · exact mouseSwitch_isListenerCall _ _ _ _ e he
  · exact absurd he (List.not_mem_nil _)

/-- The listener call `LowLevelKeyboardProc` makes (lines 94-104). -/
theorem lowLevelKeyboardProc_listenerCalls (s : HookState) (now : Int)
    (memory : Int → KBDLLHOOKSTRUCT) (raises : HookEffect → Bool) (next : Int)
    (nCode : Int) (wParam : Nat) (lParam : Int) :
    (LowLevelKeyboardProc s now memory raises next nCode wParam lParam).listenerCalls
      = if nCode ≥ 0 ∧ s.g_keyboardCallback ≠ 0 then
          [HookEffect.keyboardCallback s.g_keyboardCallback (wrap32 (memory lParam).vkCode)
            (decide (wParam = WM_KEYDOWN ∨ wParam = WM_SYSKEYDOWN)) (GetCurrentTimestamp s now)]
        else [] := by
  unfold LowLevelKeyboardProc
  rw [forwardAfter_listenerCalls]
  · by_cases h1 : nCode ≥ 0 <;> by_cases h2 : s.g_keyboardCallback = 0 <;> simp [h1, h2]
  · intro e he
    by_cases h1 : nCode ≥ 0 <;> by_cases h2 : s.g_keyboardCallback = 0 <;>
      simp [h1, h2] at he
    subst he
    rfl

/-- C5: with a non-negative code and the three mouse listeners registered,
`LowLevelMouseProc` makes exactly one listener call, the one of the mapping:
move to `onMove(x, y, t)`; left, right, middle button down or up to
`onButton(0/1/2, isDown, x, y, t)`; wheel to `onWheel(d, x, y, t)` with `d` the
high 16 bits of `mouseData` read as a signed 16-bit integer; and no listener
call for any other message. -/
theorem lowLevelMouseProc_mapping (s : HookState) (now : Int)
    (memory : Int → MSLLHOOKSTRUCT) (raises : HookEffect → Bool) (next : Int)
    (nCode : Int) (wParam : Nat) (lParam : Int)
    (hcode : 0 ≤ nCode) (hm : s.g_mouseMoveCallback ≠ 0)
    (hb : s.g_mouseButtonCallback ≠ 0) (hw : s.g_mouseWheelCallback ≠ 0) :
    let calls := (LowLevelMouseProc s now memory raises next nCode wParam lParam).listenerCalls
    let x := (memory lParam).pt_x
    let y := (memory lParam).pt_y
    let t := GetCurrentTimestamp s now
    let hi : Nat := (memory lParam).mouseData / 65536 % 65536
    let d : Int := if hi < 32768 then (hi : Int) else (hi : Int) - 65536
    (wParam = WM_MOUSEMOVE → calls = [HookEffect.mouseMoveCallback s.g_mouseMoveCallback x y t])
    ∧ (wParam = WM_LBUTTONDOWN →
        calls = [HookEffect.mouseButtonCallback s.g_mouseButtonCallback 0 true x y t])
    ∧ (wParam = WM_LBUTTONUP →
        calls = [HookEffect.mouseButtonCallback s.g_mouseButtonCallback 0 false x y t])
    ∧ (wParam = WM_RBUTTONDOWN →
        calls = [HookEffect.mouseButtonCallback s.g_mouseButtonCallback 1 true x y t])
    ∧ (wParam = WM_RBUTTONUP →
        calls = [HookEffect.mouseButtonCallback s.g_mouseButtonCallback 1 false x y t])
    ∧ (wParam = WM_MBUTTONDOWN →
        calls = [HookEffect.mouseButtonCallback s.g_mouseButtonCallback 2 true x y t])
    ∧ (wParam = WM_MBUTTONUP →
        calls = [HookEffect.mouseButtonCallback s.g_mouseButtonCallback 2 false x y t])
    ∧ (wParam = WM_MOUSEWHEEL →
        calls = [HookEffect.mouseWheelCallback s.g_mouseWheelCallback d x y t])
    ∧ (wParam ∉ [WM_MOUSEMOVE, WM_LBUTTONDOWN, WM_LBUTTONUP, WM_RBUTTONDOWN, WM_RBUTTONUP,
          WM_MBUTTONDOWN, WM_MBUTTONUP, WM_MOUSEWHEEL] →
        calls = []) := by
  intro calls x y t hi d
  have hcalls : calls = mouseSwitch s wParam (memory lParam) (GetCurrentTimestamp s now) := by
    show (LowLevelMouseProc s now memory raises next nCode wParam lParam).listenerCalls = _
    rw [lowLevelMouseProc_listenerCalls, if_pos hcode]
  rw [hcalls]
  refine ⟨?_, ?_, ?_, ?_, ?_, ?_, ?_, ?_, ?_⟩
  · intro h; subst h
    simp [mouseSwitch, WM_MOUSEMOVE, hm, x, y, t]
  · intro h; subst h
    simp [mouseSwitch, WM_MOUSEMOVE, WM_LBUTTONDOWN, hb, x, y, t]
  · intro h; subst h
    simp [mouseSwitch, WM_MOUSEMOVE, WM_LBUTTONDOWN, WM_LBUTTONUP, hb, x, y, t]
  · intro h; subst h
    simp [mouseSwitch, WM_MOUSEMOVE, WM_LBUTTONDOWN, WM_LBUTTONUP, WM_RBUTTONDOWN, hb, x, y, t]
  · intro h; subst h
    simp [mouseSwitch, WM_MOUSEMOVE, WM_LBUTTONDOWN, WM_LBUTTONUP, WM_RBUTTONDOWN,
      WM_RBUTTONUP, hb, x, y, t]
  · intro h; subst h
    simp [mouseSwitch, WM_MOUSEMOVE, WM_LBUTTONDOWN, WM_LBUTTONUP, WM_RBUTTONDOWN,
      WM_RBUTTONUP, WM_MBUTTONDOWN, hb, x, y, t]
  · intro h; subst h
    simp [mouseSwitch, WM_MOUSEMOVE, WM_LBUTTONDOWN, WM_LBUTTONUP, WM_RBUTTONDOWN,
      WM_RBUTTONUP, WM_MBUTTONDOWN, WM_MBUTTONUP, hb, x, y, t]
  · intro h; subst h
    simp [mouseSwitch, WM_MOUSEMOVE, WM_LBUTTONDOWN, WM_LBUTTONUP, WM_RBUTTONDOWN,
      WM_RBUTTONUP, WM_MBUTTONDOWN, WM_MBUTTONUP, WM_MOUSEWHEEL, hw, x, y, t, d, hi,
      GET_WHEEL_DELTA_WPARAM, HIWORD_eq]
  · intro h
    simp only [List.mem_cons, List.mem_singleton, List.not_mem_nil, or_false, not_or] at h
    obtain ⟨h1, h2, h3, h4, h5, h6, h7, h8⟩ := h
    simp [mouseSwitch, h1, h2, h3, h4, h5, h6, h7, h8]

/-- C5 at a wheel notification whose `mouseData` is `0xFF880000`, at point
(100, 200): the one listener call is `onWheel(-120, 100, 200, t)`. -/
theorem lowLevelMouseProc_mapping_witness :
    (LowLevelMouseProc ⟨7, 0, 11, 12, 13, 0, 0, true⟩ 5000000 (fun _ => ⟨100, 200, 0xFF880000⟩)
        (fun _ => false) 0 0 WM_MOUSEWHEEL 4096).listenerCalls
      = [HookEffect.mouseWheelCallback 13 (-120) 100 200
          (GetCurrentTimestamp ⟨7, 0, 11, 12, 13, 0, 0, true⟩ 5000000)] :=
  (lowLevelMouseProc_mapping ⟨7, 0, 11, 12, 13, 0, 0, true⟩ 5000000
    (fun _ => ⟨100, 200, 0xFF880000⟩) (fun _ => false) 0 0 WM_MOUSEWHEEL 4096
    (by decide) (by decide) (by decide) (by decide)).2.2.2.2.2.2.2.1 rfl

theorem forwardAfter_spec (raises : HookEffect → Bool) (calls : List HookEffect)
    (hhk : Nat) (nCode : Int) (wParam : Nat) (lParam : Int) (next : Int)
    (h : ∀ e ∈ calls, e.isListenerCall = true) :
    ((∀ e ∈ (forwardAfter raises calls hhk nCode wParam lParam next).listenerCalls,
          raises e = false) →
        (forwardAfter raises calls hhk nCode wParam lParam next).result = some next
        ∧ (forwardAfter raises calls hhk nCode wParam lParam next).forwarded
            = [HookEffect.callNextHookEx hhk nCode wParam lParam]
        ∧ (forwardAfter raises calls hhk nCode wParam lParam next).effects
            = (forwardAfter raises calls hhk nCode wParam lParam next).listenerCalls
                ++ [HookEffect.callNextHookEx hhk nCode wParam lParam])
    ∧ ((∃ e ∈ (forwardAfter raises calls hhk nCode wParam lParam next).listenerCalls,
          raises e = true) →
        (forwardAfter raises calls hhk nCode wParam lParam next).result = none
        ∧ (forwardAfter raises calls hhk nCode wParam lParam next).forwarded = []) := by
  rw [forwardAfter_listenerCalls raises calls hhk nCode wParam lParam next h]
  constructor
  · intro hr
    obtain ⟨h1, h2, h3⟩ := forwardAfter_returns raises calls hhk nCode wParam lParam next h hr
    exact ⟨h1, h3, h2⟩
  · intro hr
    exact forwardAfter_raises raises calls hhk nCode wParam lParam next h hr

/-- C6 as amended: whenever no listener call raises an error, in particular
for a negative code (no listener call is made) and when the listener is
absent, `LowLevelMouseProc` and `LowLevelKeyboardProc` return what
`CallNextHookEx` returns and call it exactly once, last, with the original
`(nCode, wParam, lParam)`; an error raised by a listener is not caught: it
leaves the procedure and the notification is not forwarded. -/
theorem hookProc_forwards_unless_listener_raises (s : HookState) (now : Int)
    (mouseMemory : Int → MSLLHOOKSTRUCT) (keyboardMemory : Int → KBDLLHOOKSTRUCT)
    (raises : HookEffect → Bool) (next : Int) (nCode : Int) (wParam : Nat) (lParam : Int) :
    let m := LowLevelMouseProc s now mouseMemory raises next nCode wParam lParam
    let k := LowLevelKeyboardProc s now keyboardMemory raises next nCode wParam lParam
    ((∀ e ∈ m.listenerCalls, raises e = false) →
        m.result = some next
        ∧ m.forwarded = [HookEffect.callNextHookEx s.g_mouseHook nCode wParam lParam]
        ∧ m.effects
            = m.listenerCalls ++ [HookEffect.callNextHookEx s.g_mouseHook nCode wParam lParam])
    ∧ ((∀ e ∈ k.listenerCalls, raises e = false) →
        k.result = some next
        ∧ k.forwarded = [HookEffect.callNextHookEx s.g_keyboardHook nCode wParam lParam]
        ∧ k.effects
            = k.listenerCalls
                ++ [HookEffect.callNextHookEx s.g_keyboardHook nCode wParam lParam])
    ∧ (nCode < 0 → m.listenerCalls = [] ∧ k.listenerCalls = [])
    ∧ (s.g_mouseMoveCallback = 0 ∧ s.g_mouseButtonCallback = 0 ∧ s.g_mouseWheelCallback = 0 →
        m.listenerCalls = [])
    ∧ (s.g_keyboardCallback = 0 → k.listenerCalls = [])
    ∧ ((∃ e ∈ m.listenerCalls, raises e = true) → m.result = none ∧ m.forwarded = [])
    ∧ ((∃ e ∈ k.listenerCalls, raises e = true) → k.result = none ∧ k.forwarded = []) := by
  intro m k
  have hm : ∀ e ∈ (if nCode ≥ 0 then
      mouseSwitch s wParam (mouseMemory lParam) (GetCurrentTimestamp s now) else []),
      e.isListenerCall = true := by
    intro e he
    split_ifs at he with h
    · exact mouseSwitch_isListenerCall _ _ _ _ e he
    · exact absurd he (List.not_mem_nil _)
  have hk : ∀ e ∈ (if nCode ≥ 0 then
      (if s.g_keyboardCallback ≠ 0 then
        [HookEffect.keyboardCallback s.g_keyboardCallback
          (wrap32 (keyboardMemory lParam).vkCode)
          (decide (wParam = WM_KEYDOWN ∨ wParam = WM_SYSKEYDOWN)) (GetCurrentTimestamp s now)]
      else []) else []), e.isListenerCall = true := by
    intro e he
    split_ifs at he with h1 h2
    · rw [List.mem_singleton] at he; subst he; rfl
    · exact absurd he (List.not_mem_nil _)
    · exact absurd he (List.not_mem_nil _)
  have sm := forwardAfter_spec raises _ s.g_mouseHook nCode wParam lParam next hm
  have sk := forwardAfter_spec raises _ s.g_keyboardHook nCode wParam lParam next hk
  refine ⟨sm.1, sk.1, ?_, ?_, ?_, sm.2, sk.2⟩
  · intro hneg
    have hn : ¬ nCode ≥ 0 := by omega
    constructor
    · show (LowLevelMouseProc s now mouseMemory raises next nCode wParam lParam).listenerCalls = []
      rw [lowLevelMouseProc_listenerCalls, if_neg hn]
    · show (LowLevelKeyboardProc s now keyboardMemory raises next nCode wParam
        lParam).listenerCalls = []
      rw [lowLevelKeyboardProc_listenerCalls, if_neg (fun h => hn h.1)]
  · rintro ⟨h1, h2, h3⟩
    show (LowLevelMouseProc s now mouseMemory raises next nCode wParam lParam).listenerCalls = []
    rw [lowLevelMouseProc_listenerCalls]
    split_ifs
    · unfold mouseSwitch
      simp [h1, h2, h3]
    · rfl
  · intro h
    show (LowLevelKeyboardProc s now keyboardMemory raises next nCode wParam
      lParam).listenerCalls = []
    rw [lowLevelKeyboardProc_listenerCalls, if_neg (fun hh => hh.2 h)]

/-- C6 as amended, at a move notification delivered to a listener that returns
and at a key notification with a negative code: each is forwarded once,
unchanged. -/
theorem hookProc_forwards_unless_listener_raises_witness :
    ((LowLevelMouseProc ⟨7, 8, 11, 12, 13, 14, 0, true⟩ 5000000 (fun _ => ⟨100, 200, 0⟩)
        (fun _ => false) 1 0 WM_MOUSEMOVE 4096).forwarded
      = [HookEffect.callNextHookEx 7 0 WM_MOUSEMOVE 4096])
    ∧ ((LowLevelKeyboardProc ⟨7, 8, 11, 12, 13, 14, 0, true⟩ 5000000 (fun _ => ⟨65⟩)
        (fun _ => true) 1 (-1) WM_KEYDOWN 4096).forwarded
      = [HookEffect.callNextHookEx 8 (-1) WM_KEYDOWN 4096]) :=
  ⟨((hookProc_forwards_unless_listener_raises ⟨7, 8, 11, 12, 13, 14, 0, true⟩ 5000000
      (fun _ => ⟨100, 200, 0⟩) (fun _ => ⟨65⟩) (fun _ => false) 1 0 WM_MOUSEMOVE 4096).1
      (fun _ _ => rfl)).2.1,
   ((hookProc_forwards_unless_listener_raises ⟨7, 8, 11, 12, 13, 14, 0, true⟩ 5000000
      (fun _ => ⟨100, 200, 0⟩) (fun _ => ⟨65⟩) (fun _ => true) 1 (-1) WM_KEYDOWN 4096).2.1
      (fun e he => absurd he (by
        rw [lowLevelKeyboardProc_listenerCalls]
        simp))).2.1⟩

/-- C6, the counterexample: a move notification with code 0 reaches a
registered move listener that raises an error. The procedure has no handler:
the error leaves it, `CallNextHookEx` is not called, nothing is returned. -/
theorem lowLevelMouseProc_listener_error_escapes :
    (LowLevelMouseProc ⟨7, 8, 11, 12, 13, 14, 0, true⟩ 5000000 (fun _ => ⟨100, 200, 0⟩)
        (fun _ => true) 1 0 WM_MOUSEMOVE 4096).result = none
    ∧ (LowLevelMouseProc ⟨7, 8, 11, 12, 13, 14, 0, true⟩ 5000000 (fun _ => ⟨100, 200, 0⟩)
        (fun _ => true) 1 0 WM_MOUSEMOVE 4096).forwarded = []
    ∧ (LowLevelMouseProc ⟨7, 8, 11, 12, 13, 14, 0, true⟩ 5000000 (fun _ => ⟨100, 200, 0⟩)
        (fun _ => true) 1 0 WM_MOUSEMOVE 4096).listenerCalls
      = [HookEffect.mouseMoveCallback 11 100 200
          (GetCurrentTimestamp ⟨7, 8, 11, 12, 13, 14, 0, true⟩ 5000000)] := by
  refine ⟨?_, ?_, ?_⟩ <;>
    simp [LowLevelMouseProc, forwardAfter, mouseSwitch, ProcRun.forwarded,
      ProcRun.listenerCalls, HookEffect.isListenerCall, WM_MOUSEMOVE]

/-! ## InputSimulator -/

theorem wrap32_of_inInt32 {n : Int} (h : InInt32 n) : wrap32 n = n := by
  unfold InInt32 at h
  unfold wrap32
  omega

theorem inInt32_wrap32 (n : Int) : InInt32 (wrap32 n) := by
  unfold InInt32 wrap32
  omega

theorem truncQ_intCast (n : Int) : truncQ (n : ℚ) = n := by
  unfold truncQ
  split_ifs <;> simp

theorem truncQ_mono {x y : ℚ} (h : x ≤ y) : truncQ x ≤ truncQ y := by
  unfold truncQ
  split_ifs with hx hy hy
  · exact Int.floor_mono h
  · exfalso; linarith
  · have h1 : ⌈x⌉ ≤ 0 := Int.ceil_le.mpr (by push_cast; linarith)
    have h2 : 0 ≤ ⌊y⌋ := Int.floor_nonneg.mpr hy
    omega
  · exact Int.ceil_mono h

theorem tdiv_eq_truncQ (a : Int) {w : Int} (hw : 0 < w) :
    Int.tdiv a w = truncQ ((a : ℚ) / (w : ℚ)) := by
  have hwq : (0 : ℚ) < (w : ℚ) := by exact_mod_cast hw
  obtain ⟨d, rfl⟩ : ∃ d : ℕ, w = (d : ℤ) := ⟨w.toNat, by omega⟩
  unfold truncQ
  rcases le_or_lt 0 a with ha | ha
  · rw [if_pos (div_nonneg (by exact_mod_cast ha) hwq.le), Int.tdiv_eq_ediv ha hw.le]
    exact (Rat.floor_intCast_div_natCast a d).symm
  · have hneg : ¬ (0 : ℚ) ≤ (a : ℚ) / ((d : ℤ) : ℚ) := by
      rw [not_le]
      exact div_neg_of_neg_of_pos (by exact_mod_cast ha) hwq
    rw [if_neg hneg]
    have e1 : Int.tdiv a (d : ℤ) = -((-a) / (d : ℤ)) := by
      have := Int.neg_tdiv (-a) (d : ℤ)
      rw [neg_neg] at this
      rw [this, Int.tdiv_eq_ediv (by omega) hw.le]
    have e2 : ⌈(a : ℚ) / ((d : ℤ) : ℚ)⌉ = -⌊((-a : ℤ) : ℚ) / (d : ℚ)⌋ := by
      rw [← Int.ceil_neg]
      congr 1
      push_cast
      ring
    rw [e1, e2, Rat.floor_intCast_div_natCast]

theorem tdiv_inInt32 {a w : Int} (ha : InInt32 a) (hw : 0 < w) : InInt32 (Int.tdiv a w) := by
  unfold InInt32 at *
  rcases le_or_lt 0 a with h | h
  · rw [Int.tdiv_eq_ediv h hw.le]
    have h1 := Int.ediv_le_self w h
    have h2 := Int.ediv_nonneg h hw.le
    omega
  · have e1 : Int.tdiv a w = -((-a) / w) := by
      have := Int.neg_tdiv (-a) w
      rw [neg_neg] at this
      rw [this, Int.tdiv_eq_ediv (by omega) hw.le]
    have h1 := Int.ediv_le_self w (show 0 ≤ -a by omega)
    have h2 := Int.ediv_nonneg (show 0 ≤ -a by omega) hw.le
    omega

/-- C8 as amended: for positive screen dimensions and coordinates whose
products with 65535 are `int` values, `ScreenToAbsolute` returns the quotients
`x * 65535 / screenWidth` and `y * 65535 / screenHeight` truncated toward zero,
unclamped; for a non-negative coordinate that is the floor. -/
theorem screenToAbsolute_truncates (x y screenWidth screenHeight : Int)
    (hw : 0 < screenWidth) (hh : 0 < screenHeight)
    (hx : InInt32 (x * 65535)) (hy : InInt32 (y * 65535)) :
    ScreenToAbsolute x y screenWidth screenHeight
      = some (truncQ (((x * 65535 : Int) : ℚ) / (screenWidth : ℚ)),
              truncQ (((y * 65535 : Int) : ℚ) / (screenHeight : ℚ)))
    ∧ (0 ≤ x → truncQ (((x * 65535 : Int) : ℚ) / (screenWidth : ℚ))
        = floorAbsolute x screenWidth)
    ∧ (0 ≤ y → truncQ (((y * 65535 : Int) : ℚ) / (screenHeight : ℚ))
        = floorAbsolute y screenHeight) := by
  refine ⟨?_, ?_, ?_⟩
  · unfold ScreenToAbsolute
    rw [if_neg (by omega)]
    simp only
    rw [wrap32_of_inInt32 hx, wrap32_of_inInt32 hy,
      wrap32_of_inInt32 (tdiv_inInt32 hx hw), wrap32_of_inInt32 (tdiv_inInt32 hy hh),
      tdiv_eq_truncQ _ hw, tdiv_eq_truncQ _ hh]
  · intro h0
    unfold truncQ floorAbsolute
    rw [if_pos]
    exact div_nonneg (by exact_mod_cast (show (0 : Int) ≤ x * 65535 by omega))
      (by exact_mod_cast hw.le)
  · intro h0
    unfold truncQ floorAbsolute
    rw [if_pos]
    exact div_nonneg (by exact_mod_cast (show (0 : Int) ≤ y * 65535 by omega))
      (by exact_mod_cast hh.le)

/-- C8 as amended, on a 1920 by 1080 screen at the point (960, -1): the
absolute coordinates are 32767 and -60. -/
theorem screenToAbsolute_truncates_witness :
    ScreenToAbsolute 960 (-1) 1920 1080
      = some (truncQ (((960 * 65535 : Int) : ℚ) / ((1920 : Int) : ℚ)),
              truncQ ((((-1) * 65535 : Int) : ℚ) / ((1080 : Int) : ℚ)))
    ∧ truncQ (((960 * 65535 : Int) : ℚ) / ((1920 : Int) : ℚ)) = floorAbsolute 960 1920 :=
  have h := screenToAbsolute_truncates 960 (-1) 1920 1080 (by decide) (by decide)
    (by decide) (by decide)
  ⟨h.1, h.2.1 (by decide)⟩

/-- C8, the counterexample: on a 1920 by 1080 screen the point (-1, -1) maps to
(-34, -60), the quotients truncated toward zero, where the floors are -35 and
-61; and the point (40000, 0) maps to (-871649, 0), the `int` product
`40000 * 65535` having wrapped, where the floor over the mathematical integers
is 1365312. -/
theorem screenToAbsolute_not_floor :
    ScreenToAbsolute (-1) (-1) 1920 1080 = some (-34, -60)
    ∧ floorAbsolute (-1) 1920 = -35 ∧ floorAbsolute (-1) 1080 = -61
    ∧ ScreenToAbsolute (-1) (-1) 1920 1080
        ≠ some (floorAbsolute (-1) 1920, floorAbsolute (-1) 1080)
    ∧ ScreenToAbsolute 40000 0 1920 1080 = some (-871649, 0)
    ∧ floorAbsolute 40000 1920 = 1365312
    ∧ ScreenToAbsolute 40000 0 1920 1080
        ≠ some (floorAbsolute 40000 1920, floorAbsolute 0 1080) := by
  have f1 : floorAbsolute (-1) 1920 = -35 := by
    unfold floorAbsolute
    rw [Int.floor_eq_iff]
    norm_num
  have f2 : floorAbsolute (-1) 1080 = -61 := by
    unfold floorAbsolute
    rw [Int.floor_eq_iff]
    norm_num
  have f3 : floorAbsolute 40000 1920 = 1365312 := by
    unfold floorAbsolute
    rw [Int.floor_eq_iff]
    norm_num
  have c1 : ScreenToAbsolute (-1) (-1) 1920 1080 = some (-34, -60) := by decide
  have c2 : ScreenToAbsolute 40000 0 1920 1080 = some (-871649, 0) := by decide
  refine ⟨c1, f1, f2, ?_, c2, f3, ?_⟩
  · rw [c1, f1, f2]
    decide
  · rw [c2, f3]
    intro h
    have := congrArg (fun p => p.map Prod.fst) h
    simp at this

/-- C9: `MouseButtonDown(b)` submits exactly one mouse event, carrying the
left, right or middle DOWN flag for `b` = 0, 1, 2, and nothing for any other
`b`; `MouseButtonUp(b)` likewise with the UP flags. -/
theorem mouseButton_events (b : Int) :
    MouseButtonDown 0 = [⟨MOUSEEVENTF_LEFTDOWN, 0, 0, 0⟩]
    ∧ MouseButtonDown 1 = [⟨MOUSEEVENTF_RIGHTDOWN, 0, 0, 0⟩]
    ∧ MouseButtonDown 2 = [⟨MOUSEEVENTF_MIDDLEDOWN, 0, 0, 0⟩]
    ∧ (b ≠ 0 ∧ b ≠ 1 ∧ b ≠ 2 → MouseButtonDown b = [])
    ∧ MouseButtonUp 0 = [⟨MOUSEEVENTF_LEFTUP, 0, 0, 0⟩]
    ∧ MouseButtonUp 1 = [⟨MOUSEEVENTF_RIGHTUP, 0, 0, 0⟩]
    ∧ MouseButtonUp 2 = [⟨MOUSEEVENTF_MIDDLEUP, 0, 0, 0⟩]
    ∧ (b ≠ 0 ∧ b ≠ 1 ∧ b ≠ 2 → MouseButtonUp b = []) := by
  refine ⟨rfl, rfl, rfl, ?_, rfl, rfl, rfl, ?_⟩
  · rintro ⟨h0, h1, h2⟩
    simp [MouseButtonDown, h0, h1, h2]
  · rintro ⟨h0, h1, h2⟩
    simp [MouseButtonUp, h0, h1, h2]

/-- C9 at the button id 99: neither function submits an event. -/
theorem mouseButton_events_witness : MouseButtonDown 99 = [] ∧ MouseButtonUp 99 = [] :=
  have h := mouseButton_events 99
  ⟨h.2.2.2.1 (by decide), h.2.2.2.2.2.2.2 (by decide)⟩

theorem roundDouble_zero : roundDouble 0 = 0 := by
  simp [roundDouble]

theorem roundDouble_one : roundDouble 1 = 1 := by
  have := roundDouble_intCast (n := 1) (by decide) (by decide)
  simpa using this

theorem lerpParameter_self {steps : Int} (hs : 1 ≤ steps) : lerpParameter steps steps = 1 := by
  unfold lerpParameter
  have h : (steps : ℚ) ≠ 0 := by
    have : (0 : ℚ) < (steps : ℚ) := by exact_mod_cast (show (0 : Int) < steps by omega)
    exact this.ne'
  rw [div_self h, roundDouble_one]

theorem lerpParameter_mono {steps i j : Int} (hs : 1 ≤ steps) (hij : i ≤ j) :
    lerpParameter steps i ≤ lerpParameter steps j := by
  unfold lerpParameter
  apply roundDouble_mono
  have hsq : (0 : ℚ) < (steps : ℚ) := by exact_mod_cast (show (0 : Int) < steps by omega)
  exact div_le_div_of_nonneg_right (by exact_mod_cast hij) hsq.le

theorem lerpParameter_bounds {steps i : Int} (h1 : 1 ≤ i) (h2 : i ≤ steps) :
    0 ≤ lerpParameter steps i ∧ lerpParameter steps i ≤ 1 := by
  have hs : 1 ≤ steps := le_trans h1 h2
  constructor
  · have h0 : lerpParameter steps 0 = 0 := by
      unfold lerpParameter
      simp [roundDouble_zero]
    rw [← h0]
    exact lerpParameter_mono hs (by omega)
  · rw [← lerpParameter_self hs]
    exact lerpParameter_mono hs h2

/-- The interpolated `double` is monotone in the parameter, in the direction of
the difference. -/
theorem lerp_mono (start d : Int) {t1 t2 : ℚ} (ht : t1 ≤ t2) :
    (0 ≤ d → roundDouble ((start : ℚ) + roundDouble ((d : ℚ) * t1))
        ≤ roundDouble ((start : ℚ) + roundDouble ((d : ℚ) * t2)))
    ∧ (d ≤ 0 → roundDouble ((start : ℚ) + roundDouble ((d : ℚ) * t2))
        ≤ roundDouble ((start : ℚ) + roundDouble ((d : ℚ) * t1))) := by
  constructor
  · intro hd
    have hdq : (0 : ℚ) ≤ (d : ℚ) := by exact_mod_cast hd
    exact roundDouble_mono (add_le_add_left (roundDouble_mono
      (mul_le_mul_of_nonneg_left ht hdq)) _)
  · intro hd
    have hdq : (d : ℚ) ≤ 0 := by exact_mod_cast hd
    exact roundDouble_mono (add_le_add_left (roundDouble_mono
      (mul_le_mul_of_nonpos_left ht hdq)) _)

theorem lerp_at_zero {start : Int} (d : Int) (hs : InInt32 start) :
    roundDouble ((start : ℚ) + roundDouble ((d : ℚ) * 0)) = start := by
  unfold InInt32 at hs
  rw [mul_zero, roundDouble_zero, add_zero]
  exact roundDouble_intCast (by omega) (by omega)

theorem lerp_at_one {start d : Int} (hs : InInt32 start) (hd : InInt32 d) :
    roundDouble ((start : ℚ) + roundDouble ((d : ℚ) * 1)) = ((start + d : Int) : ℚ) := by
  unfold InInt32 at hs hd
  rw [mul_one, roundDouble_intCast (n := d) (by omega) (by omega)]
  have := roundDouble_intCast (n := start + d) (by omega) (by omega)
  push_cast at this ⊢
  exact this

/-- Within the loop and when the `int` difference does not overflow, the
interpolated `double` lies between start and target, so its cast is defined. -/
theorem waypoint_ok {start target steps i : Int} (hs : InInt32 start) (ht : InInt32 target)
    (hd : InInt32 (target - start)) (h1 : 1 ≤ i) (h2 : i ≤ steps) :
    waypoint start target steps i = .ok (truncQ (waypointDouble start target steps i))
    ∧ (start ≤ target → start ≤ truncQ (waypointDouble start target steps i)
        ∧ truncQ (waypointDouble start target steps i) ≤ target)
    ∧ (target ≤ start → target ≤ truncQ (waypointDouble start target steps i)
        ∧ truncQ (waypointDouble start target steps i) ≤ start) := by
  obtain ⟨t0, t1⟩ := lerpParameter_bounds h1 h2
  have e1 := lerp_at_one hs hd
  have e0 := lerp_at_zero (target - start) hs
  have etarget : start + (target - start) = target := by ring
  rw [etarget] at e1
  have hup : start ≤ target → start ≤ truncQ (waypointDouble start target steps i)
      ∧ truncQ (waypointDouble start target steps i) ≤ target := by
    intro hle
    unfold waypointDouble
    simp only
    rw [wrap32_of_inInt32 hd]
    have m0 := (lerp_mono start (target - start) t0).1 (by omega)
    have m1 := (lerp_mono start (target - start) t1).1 (by omega)
    rw [e0] at m0
    rw [e1] at m1
    have a := truncQ_mono m0
    have b := truncQ_mono m1
    rw [truncQ_intCast] at a b
    exact ⟨a, b⟩
  have hdown : target ≤ start → target ≤ truncQ (waypointDouble start target steps i)
      ∧ truncQ (waypointDouble start target steps i) ≤ start := by
    intro hle
    unfold waypointDouble
    simp only
    rw [wrap32_of_inInt32 hd]
    have m0 := (lerp_mono start (target - start) t0).2 (by omega)
    have m1 := (lerp_mono start (target - start) t1).2 (by omega)
    rw [e0] at m0
    rw [e1] at m1
    have a := truncQ_mono m0
    have b := truncQ_mono m1
    rw [truncQ_intCast] at a b
    exact ⟨b, a⟩
  refine ⟨?_, hup, hdown⟩
  unfold waypoint castToInt
  rw [if_pos]
  unfold InInt32 at *
  rcases le_total start target with h | h
  · have := hup h
    omega
  · have := hdown h
    omega

theorem waypoint_last {start target steps : Int} (hs : InInt32 start)
    (hd : InInt32 (target - start)) (h1 : 1 ≤ steps) :
    truncQ (waypointDouble start target steps steps) = target := by
  unfold waypointDouble
  simp only
  rw [lerpParameter_self h1, wrap32_of_inInt32 hd, lerp_at_one hs hd]
  rw [truncQ_intCast]
  ring

theorem movesOf_sleep_append (delayMs : Int) (c : Prop) [Decidable c] (rest : List SmoothCall) :
    movesOf ((if c then [SmoothCall.preciseSleep delayMs] else []) ++ rest) = movesOf rest := by
  split_ifs <;> rfl

/-- The loop of `MoveMouseSmooth` started at counter `i` with `n` iterations
left returns, and passes to `MoveMouse` the waypoints of `i`, ..., `i + n - 1`
in this order. -/
theorem smoothLoop_moves {startX startY targetX targetY steps : Int} (delayMs : Int)
    (hsx : InInt32 startX) (hsy : InInt32 startY)
    (htx : InInt32 targetX) (hty : InInt32 targetY)
    (hdx : InInt32 (targetX - startX)) (hdy : InInt32 (targetY - startY))
    (hsteps : steps < 2147483647) :
    ∀ (n : ℕ) (i : Int) (fuel : ℕ), 1 ≤ i → i + n = steps + 1 → n < fuel →
      ∃ trace, smoothLoop startX startY targetX targetY steps delayMs fuel i = .ok trace
        ∧ movesOf trace = (List.range n).map (fun k : ℕ =>
            (truncQ (waypointDouble startX targetX steps (i + k)),
             truncQ (waypointDouble startY targetY steps (i + k)))) := by
  intro n
  induction n with
  | zero =>
    intro i fuel _ hn hf
    obtain ⟨f, rfl⟩ : ∃ f, fuel = f + 1 := ⟨fuel - 1, by omega⟩
    refine ⟨[], ?_, rfl⟩
    unfold smoothLoop
    rw [if_neg (by omega)]
  | succ n ih =>
    intro i fuel hi hn hf
    obtain ⟨f, rfl⟩ : ∃ f, fuel = f + 1 := ⟨fuel - 1, by omega⟩
    have hle : i ≤ steps := by omega
    have hwrap : wrap32 (i + 1) = i + 1 := wrap32_of_inInt32 (by unfold InInt32; omega)
    obtain ⟨rest, hrest, hmoves⟩ := ih (i + 1) f (by omega) (by push_cast at hn ⊢; omega)
      (by omega)
    refine ⟨SmoothCall.moveMouse (truncQ (waypointDouble startX targetX steps i))
        (truncQ (waypointDouble startY targetY steps i)) ::
      ((if delayMs > 0 ∧ i < steps then [SmoothCall.preciseSleep delayMs] else []) ++ rest),
      ?_, ?_⟩
    · unfold smoothLoop
      rw [if_pos hle, (waypoint_ok hsx htx hdx hi hle).1, (waypoint_ok hsy hty hdy hi hle).1]
      simp only
      rw [hwrap, hrest]
    · rw [movesOf, movesOf_sleep_append, hmoves, List.range_succ_eq_map, List.map_cons,
        List.map_map]
      simp only [Nat.cast_zero, add_zero, List.cons.injEq, true_and]
      apply List.map_congr_left
      intro k _
      simp only [Function.comp_apply, Nat.cast_succ]
      rw [add_assoc, add_comm (1 : Int) (k : Int)]

/-- C7 as amended: when the `int` differences `targetX - startX` and
`targetY - startY` do not overflow and `steps` is at least 1 and below
`INT_MAX`, `MoveMouseSmooth` returns after calling `MoveMouse` exactly `steps`
times, with the waypoints of `i` = 1, ..., `steps` in this order, the last
being `(targetX, targetY)`, whatever `delayMs`. -/
theorem moveMouseSmooth_reaches_target (startX startY targetX targetY steps delayMs : Int)
    (fuel : ℕ)
    (hsx : InInt32 startX) (hsy : InInt32 startY)
    (htx : InInt32 targetX) (hty : InInt32 targetY)
    (hdx : InInt32 (targetX - startX)) (hdy : InInt32 (targetY - startY))
    (h1 : 1 ≤ steps) (hsteps : steps < 2147483647) (hfuel : steps.toNat < fuel) :
    ∃ trace, MoveMouseSmooth (startX, startY) targetX targetY steps delayMs fuel = .ok trace
      ∧ (movesOf trace).length = steps.toNat
      ∧ movesOf trace = (List.range steps.toNat).map (fun k : ℕ =>
          (truncQ (waypointDouble startX targetX steps (1 + k)),
           truncQ (waypointDouble startY targetY steps (1 + k))))
      ∧ (movesOf trace).getLast? = some (targetX, targetY) := by
  obtain ⟨trace, hrun, hmoves⟩ := smoothLoop_moves delayMs hsx hsy htx hty hdx hdy hsteps
    steps.toNat 1 fuel (le_refl 1) (by omega) hfuel
  refine ⟨trace, hrun, ?_, hmoves, ?_⟩
  · rw [hmoves, List.length_map, List.length_range]
  · obtain ⟨m, hm⟩ : ∃ m : ℕ, steps.toNat = m + 1 := ⟨steps.toNat - 1, by omega⟩
    have hlast : (1 : Int) + (m : ℕ) = steps := by omega
    rw [hmoves, hm, List.range_succ, List.map_append, List.map_singleton,
      List.getLast?_append_cons, List.getLast?_singleton, hlast,
      waypoint_last hsx hdx h1, waypoint_last hsy hdy h1]

/-- C7 as amended, at the cursor position (0, 0), target (100, 100), 10 steps
and no delay: the run makes 10 moves, the 10th to (100, 100). -/
theorem moveMouseSmooth_reaches_target_witness :
    ∃ trace, MoveMouseSmooth (0, 0) 100 100 10 0 11 = .ok trace
      ∧ (movesOf trace).length = 10
      ∧ (movesOf trace).getLast? = some (100, 100) :=
  have h := moveMouseSmooth_reaches_target 0 0 100 100 10 0 11 (by decide) (by decide)
    (by decide) (by decide) (by decide) (by decide) (by decide) (by decide) (by decide)
  h.elim fun trace ht => ⟨trace, ht.1, ht.2.1, ht.2.2.2⟩

theorem waypointDouble_zero (steps i : Int) : waypointDouble 0 0 steps i = 0 := by
  unfold waypointDouble
  have : wrap32 0 = 0 := by decide
  simp [this, roundDouble_zero]

theorem smoothLoop_never_returns (fuel : ℕ) :
    ∀ i : Int, InInt32 i → smoothLoop 0 0 0 0 2147483647 0 fuel i = .error .outOfFuel := by
  induction fuel with
  | zero => intro i _; rfl
  | succ f ih =>
    intro i hi
    have hle : i ≤ 2147483647 := hi.2
    have hw : waypoint 0 0 2147483647 i = .ok 0 := by
      unfold waypoint castToInt
      rw [waypointDouble_zero]
      simp [truncQ, InInt32]
    unfold smoothLoop
    rw [if_pos hle, hw]
    simp only
    rw [ih _ (inInt32_wrap32 _)]

theorem smoothLoop_cast_fails {startX startY targetX targetY steps delayMs i : Int}
    {e : Fault} (fuel : ℕ) (h : i ≤ steps) (hx : waypoint startX targetX steps i = .error e) :
    smoothLoop startX startY targetX targetY steps delayMs (fuel + 1) i = .error e := by
  unfold smoothLoop
  rw [if_pos h, hx]

/-- C7, the counterexample. With the cursor at (-1, 0), `MoveMouseSmooth`
toward (2147483647, 0) in one step computes the `int` difference
`2147483647 - (-1)`, which wraps to -2147483648; the `double` -2147483649 is
then cast to `int`, which has no defined value, so the last waypoint is not
the target. And with `steps = 2147483647` the loop condition `i <= steps`
holds for every `int`: the loop never ends, whatever the fuel. -/
theorem moveMouseSmooth_overflow :
    (∀ (fuel : ℕ) (trace : List SmoothCall),
        MoveMouseSmooth (-1, 0) 2147483647 0 1 0 fuel ≠ .ok trace)
    ∧ MoveMouseSmooth (-1, 0) 2147483647 0 1 0 2 = .error .castOutOfRange
    ∧ waypointDouble (-1) 2147483647 1 1 = -2147483649
    ∧ ∀ fuel : ℕ, MoveMouseSmooth (0, 0) 0 0 2147483647 0 fuel = .error .outOfFuel := by
  have hw : wrap32 (2147483647 - -1) = -2147483648 := by decide
  have hd : waypointDouble (-1) 2147483647 1 1 = -2147483649 := by
    unfold waypointDouble
    simp only
    rw [lerpParameter_self (le_refl 1), hw, mul_one]
    rw [roundDouble_intCast (n := -2147483648) (by decide) (by decide), ← Int.cast_add,
      roundDouble_intCast (n := -1 + -2147483648) (by decide) (by decide)]
    norm_num
  have hc : waypoint (-1) 2147483647 1 1 = .error .castOutOfRange := by
    unfold waypoint castToInt
    rw [hd]
    have : truncQ (-2147483649 : ℚ) = -2147483649 := by
      have := truncQ_intCast (-2147483649)
      push_cast at this
      exact this
    rw [this, if_neg]
    unfold InInt32
    omega
  have hrun : ∀ f : ℕ, MoveMouseSmooth (-1, 0) 2147483647 0 1 0 (f + 1)
      = .error .castOutOfRange := by
    intro f
    show smoothLoop (-1) 0 2147483647 0 1 0 (f + 1) 1 = .error .castOutOfRange
    exact smoothLoop_cast_fails f (le_refl 1) hc
  refine ⟨?_, hrun 1, hd, ?_⟩
  · intro fuel trace h
    cases fuel with
    | zero =>
      have h0 : MoveMouseSmooth (-1, 0) 2147483647 0 1 0 0 = .error .outOfFuel := rfl
      rw [h0] at h
      cases h
    | succ f =>
      rw [hrun f] at h
      cases h
  · intro fuel
    exact smoothLoop_never_returns fuel 1 (by decide)

/-- C10 as amended: when the `int` difference `target - start` does not
overflow, the waypoint coordinates that `MoveMouseSmooth` computes at
iterations `i ≤ j` of its loop are both defined, and non-decreasing from `i`
to `j` when `target ≥ start`, non-increasing when `target ≤ start`. The
x and the y coordinate are computed by the same expression. -/
theorem waypoint_monotone (start target steps i j : Int)
    (hs : InInt32 start) (ht : InInt32 target) (hd : InInt32 (target - start))
    (hi : 1 ≤ i) (hij : i ≤ j) (hj : j ≤ steps) :
    ∃ xi xj, waypoint start target steps i = .ok xi ∧ waypoint start target steps j = .ok xj
      ∧ (start ≤ target → xi ≤ xj) ∧ (target ≤ start → xj ≤ xi) := by
  have hsteps : 1 ≤ steps := by omega
  have oki := (waypoint_ok hs ht hd hi (le_trans hij hj)).1
  have okj := (waypoint_ok hs ht hd (le_trans hi hij) hj).1
  have hmono := lerp_mono start (target - start) (lerpParameter_mono hsteps hij)
  refine ⟨_, _, oki, okj, ?_, ?_⟩
  · intro hle
    unfold waypointDouble
    simp only
    rw [wrap32_of_inInt32 hd]
    exact truncQ_mono (hmono.1 (by omega))
  · intro hle
    unfold waypointDouble
    simp only
    rw [wrap32_of_inInt32 hd]
    exact truncQ_mono (hmono.2 (by omega))

/-- C10 as amended, from 0 to 100 and from 100 to 0 in 10 steps, at
iterations 3 and 7. -/
theorem waypoint_monotone_witness :
    (∃ xi xj, waypoint 0 100 10 3 = .ok xi ∧ waypoint 0 100 10 7 = .ok xj ∧ xi ≤ xj)
    ∧ (∃ xi xj, waypoint 100 0 10 3 = .ok xi ∧ waypoint 100 0 10 7 = .ok xj ∧ xj ≤ xi) :=
  ⟨(waypoint_monotone 0 100 10 3 7 (by decide) (by decide) (by decide) (by decide)
      (by decide) (by decide)).elim
    fun xi h => h.elim fun xj h => ⟨xi, xj, h.1, h.2.1, h.2.2.1 (by decide)⟩,
   (waypoint_monotone 100 0 10 3 7 (by decide) (by decide) (by decide) (by decide)
      (by decide) (by decide)).elim
    fun xi h => h.elim fun xj h => ⟨xi, xj, h.1, h.2.1, h.2.2.2 (by decide)⟩⟩

theorem roundDouble_quarter (n : Int) (h1 : -9007199254740992 < n)
    (h2 : n < 9007199254740992) : roundDouble ((n : ℚ) / 4) = (n : ℚ) / 4 := by
  have := roundDouble_dyadic (-2) h1 h2
  have e : (n : ℚ) * (2 : ℚ) ^ (-2 : ℤ) = (n : ℚ) / 4 := by
    rw [zpow_neg]
    norm_num
    ring
  rw [e] at this
  exact this

/-- C10, the counterexample: from start -1 toward target 2147483647 in 4
steps, the `int` difference wraps to -2147483648 and the waypoints of
iterations 1 and 2 are -536870913 and -1073741825: decreasing, although the
target is above the start. -/
theorem waypoint_decreases_on_overflow :
    waypoint (-1) 2147483647 4 1 = .ok (-536870913)
    ∧ waypoint (-1) 2147483647 4 2 = .ok (-1073741825) := by
  have hw : wrap32 (2147483647 - -1) = -2147483648 := by decide
  have t1 : lerpParameter 4 1 = 1 / 4 := by
    unfold lerpParameter
    have := roundDouble_quarter 1 (by decide) (by decide)
    push_cast at this ⊢
    exact this
  have t2 : lerpParameter 4 2 = 2 / 4 := by
    unfold lerpParameter
    have := roundDouble_quarter 2 (by decide) (by decide)
    push_cast at this ⊢
    exact this
  have d1 : waypointDouble (-1) 2147483647 4 1 = ((-536870913 : Int) : ℚ) := by
    unfold waypointDouble
    simp only
    rw [t1, hw]
    have e1 : ((-2147483648 : Int) : ℚ) * (1 / 4) = ((-536870912 : Int) : ℚ) := by norm_num
    have e2 : ((-1 : Int) : ℚ) + ((-536870912 : Int) : ℚ) = ((-536870913 : Int) : ℚ) := by
      norm_num
    rw [e1, roundDouble_intCast (by decide) (by decide), e2,
      roundDouble_intCast (by decide) (by decide)]
  have d2 : waypointDouble (-1) 2147483647 4 2 = ((-1073741825 : Int) : ℚ) := by
    unfold waypointDouble
    simp only
    rw [t2, hw]
    have e1 : ((-2147483648 : Int) : ℚ) * (2 / 4) = ((-1073741824 : Int) : ℚ) := by norm_num
    have e2 : ((-1 : Int) : ℚ) + ((-1073741824 : Int) : ℚ) = ((-1073741825 : Int) : ℚ) := by
      norm_num
    rw [e1, roundDouble_intCast (by decide) (by decide), e2,
      roundDouble_intCast (by decide) (by decide)]
  constructor
  · unfold waypoint castToInt
    rw [d1, truncQ_intCast, if_pos]
    unfold InInt32
    omega
  · unfold waypoint castToInt
    rw [d2, truncQ_intCast, if_pos]
    unfold InInt32
    omega

/-! ## Further facts about the arithmetic -/

theorem log_two_eq {q : ℚ} (k : ℤ) (hq : 0 < q) (h1 : (2 : ℚ) ^ k ≤ q)
    (h2 : q < (2 : ℚ) ^ (k + 1)) : Int.log 2 q = k := by
  have a : k ≤ Int.log 2 q :=
    (Int.zpow_le_iff_le_log (by norm_num) hq).mp (by rw [Nat.cast_ofNat]; exact h1)
  have b : Int.log 2 q < k + 1 :=
    (Int.lt_zpow_iff_log_lt (by norm_num) hq).mp (by rw [Nat.cast_ofNat]; exact h2)
  omega

theorem roundHalfEven_of_near {q : ℚ} (m : ℤ) (h1 : (m : ℚ) ≤ q) (h2 : q < (m : ℚ) + 1 / 2) :
    roundHalfEven q = m := by
  have hf : ⌊q⌋ = m := by
    rw [Int.floor_eq_iff]
    constructor
    · exact h1
    · linarith
  unfold roundHalfEven
  simp only
  rw [hf, if_pos (by linarith)]

/-- The `double` computation is not the exact quotient of the specification's
formula: from 0 toward 49 in 49 steps, the first waypoint is 0, where
`0 + (49 - 0) * 1 / 49` truncates to 1. -/
theorem waypoint_below_exact_quotient :
    waypoint 0 49 49 1 = .ok 0
    ∧ truncQ ((0 : ℚ) + ((49 : ℚ) - 0) * 1 / 49) = 1 := by
  constructor
  · have hw : wrap32 (49 - 0) = 49 := by decide
    have ht : lerpParameter 49 1 = 5882252574524729 / 288230376151711744 := by
      unfold lerpParameter roundDouble
      have hpos : (0 : ℚ) < ((1 : Int) : ℚ) / ((49 : Int) : ℚ) := by norm_num
      rw [if_neg hpos.ne', if_neg (not_lt.mpr hpos.le)]
      unfold roundMagnitude
      simp only
      rw [log_two_eq (-6) hpos (by norm_num) (by norm_num)]
      rw [roundHalfEven_of_near 5882252574524729 (by norm_num) (by norm_num)]
      norm_num
    have hp : roundDouble (((49 : Int) : ℚ) * (5882252574524729 / 288230376151711744))
        = 9007199254740991 / 9007199254740992 := by
      have hpos : (0 : ℚ) < ((49 : Int) : ℚ) * (5882252574524729 / 288230376151711744) := by
        norm_num
      unfold roundDouble
      rw [if_neg hpos.ne', if_neg (not_lt.mpr hpos.le)]
      unfold roundMagnitude
      simp only
      rw [log_two_eq (-1) hpos (by norm_num) (by norm_num)]
      rw [roundHalfEven_of_near 9007199254740991 (by norm_num) (by norm_num)]
      norm_num
    have hs : roundDouble (((0 : Int) : ℚ) + 9007199254740991 / 9007199254740992)
        = 9007199254740991 / 9007199254740992 := by
      have := roundDouble_dyadic (n := 9007199254740991) (-53) (by decide) (by decide)
      have e : ((9007199254740991 : Int) : ℚ) * (2 : ℚ) ^ (-53 : ℤ)
          = ((0 : Int) : ℚ) + 9007199254740991 / 9007199254740992 := by
        rw [zpow_neg]
        norm_num
      rw [e] at this
      rw [this]
      norm_num
    have hd : waypointDouble 0 49 49 1 = 9007199254740991 / 9007199254740992 := by
      unfold waypointDouble
      simp only
      rw [ht, hw, hp, hs]
    have htr : truncQ (9007199254740991 / 9007199254740992 : ℚ) = 0 := by
      unfold truncQ
      rw [if_pos (by norm_num), Int.floor_eq_iff]
      norm_num
    unfold waypoint castToInt
    rw [hd, htr, if_pos]
    unfold InInt32
    omega
  · have e : (0 : ℚ) + ((49 : ℚ) - 0) * 1 / 49 = ((1 : Int) : ℚ) := by norm_num
    rw [e, truncQ_intCast]

/-- For a fixed epoch, `GetCurrentTimestamp` is non-decreasing in the clock
reading. -/
theorem getCurrentTimestamp_mono (s : HookState) {now1 now2 : Int} (h : now1 ≤ now2) :
    GetCurrentTimestamp s now1 ≤ GetCurrentTimestamp s now2 := by
  unfold GetCurrentTimestamp elapsedMicroseconds
  apply roundDouble_mono
  apply div_le_div_of_nonneg_right _ (by norm_num)
  apply roundDouble_mono
  have hq : ((now1 - s.g_startTime : Int) : ℚ) / ((1000 : Int) : ℚ)
      ≤ ((now2 - s.g_startTime : Int) : ℚ) / ((1000 : Int) : ℚ) :=
    div_le_div_of_nonneg_right (by exact_mod_cast (show now1 - s.g_startTime
      ≤ now2 - s.g_startTime by omega)) (by norm_num)
  have := truncQ_mono hq
  rw [← tdiv_eq_truncQ _ (by decide), ← tdiv_eq_truncQ _ (by decide)] at this
  exact_mod_cast this


end MacroMaker
